import Mathlib

/-
Verification development for the extraDistr distribution kernels.

The C++ sources implement, for each distribution, scalar math kernels
(pdf/cdf/inverse-cdf) plus vectorised wrapper operations that recycle their
input vectors to a common length.  This file embeds those functions over an
explicit model of R double values.

Modelling conventions:
* an R double is modelled by `Rdbl`: an exact real number, one of the two
  infinities, the IEEE NaN, or the R missing marker NA (a NaN with a
  distinguished payload, so the C macro ISNAN is true for both);
* comparisons follow IEEE semantics: every comparison with NaN or NA is false;
* kernel bodies compute with exact real arithmetic on the real components of
  their operands (extracted with `Rdbl.re` after the guards of the source);
  rounding, overflow, and arithmetic on non-finite operands that slip past
  the guards of the source are floating-point behaviour proper and are not
  modelled;
* the post-processing passes of the wrappers (complement, log, exp) act on
  whole vectors that may hold NaN/NA entries, so they use the `Rdbl`-level
  operations `Rdbl.sub`, `Rdbl.logR`, `Rdbl.expR`, which propagate them;
* functions that can throw an Rcpp exception return `Except String _`
  (message text abridged: quote characters are omitted);
* out-of-bounds vector writes performed by the truncated-normal wrappers
  (undefined behaviour in C++) are modelled as dropped writes;
* `R::pnorm`, `R::qnorm`, `R::dnorm` and the random streams are external
  collaborators of the repository and are passed as explicit function
  parameters.
-/

open scoped Classical

noncomputable section

/-- Model of an R double: a finite real, an infinity, the IEEE NaN, or the
R missing marker NA. -/
inductive Rdbl where
  | val (x : ℝ)
  | pinf
  | ninf
  | nan
  | na

namespace Rdbl

/-- Embedding of the R macro ISNAN, which is true for NaN and for NA. -/
def isnan : Rdbl → Bool
  | nan => true
  | na => true
  | _ => false

/-- Embedding of the R macro R_FINITE: true only for finite values. -/
def finite : Rdbl → Bool
  | val _ => true
  | _ => false

/-- Embedding of std::isinf: true exactly for the two infinities. -/
def isinf : Rdbl → Bool
  | pinf => true
  | ninf => true
  | _ => false

/-- IEEE strict less-than: any comparison involving NaN or NA is false. -/
def lt : Rdbl → Rdbl → Prop
  | val a, val b => a < b
  | val _, pinf => True
  | ninf, val _ => True
  | ninf, pinf => True
  | _, _ => False

/-- IEEE less-or-equal: any comparison involving NaN or NA is false. -/
def le : Rdbl → Rdbl → Prop
  | val a, val b => a ≤ b
  | val _, pinf => True
  | ninf, val _ => True
  | ninf, ninf => True
  | ninf, pinf => True
  | pinf, pinf => True
  | _, _ => False

/-- IEEE equality test: false whenever either side is NaN or NA. -/
def eqq : Rdbl → Rdbl → Prop
  | val a, val b => a = b
  | pinf, pinf => True
  | ninf, ninf => True
  | _, _ => False

/-- Real component of a finite value; the other cases return a junk value
and are only ever reached behind the guards of the source. -/
def re : Rdbl → ℝ
  | val x => x
  | _ => 0

/-- Embedding of the C library floor function. -/
def floorR : Rdbl → Rdbl
  | val x => val ((⌊x⌋ : ℤ) : ℝ)
  | pinf => pinf
  | ninf => ninf
  | nan => nan
  | na => na

/-- Subtraction with NaN/NA propagation, used for the vectorised complement
pass `p = 1.0 - p` of the wrappers. -/
def sub : Rdbl → Rdbl → Rdbl
  | na, _ => na
  | _, na => na
  | nan, _ => nan
  | _, nan => nan
  | pinf, pinf => nan
  | ninf, ninf => nan
  | pinf, _ => pinf
  | ninf, _ => ninf
  | val _, pinf => ninf
  | val _, ninf => pinf
  | val a, val b => val (a - b)

/-- Embedding of the C library log function with NaN/NA propagation. -/
def logR : Rdbl → Rdbl
  | na => na
  | nan => nan
  | pinf => pinf
  | ninf => nan
  | val x => if 0 < x then val (Real.log x) else if x = 0 then ninf else nan

/-- Embedding of the C library exp function with NaN/NA propagation. -/
def expR : Rdbl → Rdbl
  | na => na
  | nan => nan
  | pinf => pinf
  | ninf => val 0
  | val x => val (Real.exp x)

end Rdbl

/-- Recycling access of the broadcasting engine: the element of `v` used at
iteration index `i` is the one at position `i mod length v`, exactly the
`v[i % n]` idiom of the sources. -/
def cyc (v : List Rdbl) (i : ℕ) : Rdbl := v.getD (i % v.length) Rdbl.nan

/-- Vectorised complement pass `p = 1.0 - p`. -/
def mapComp (p : List Rdbl) : List Rdbl := p.map (fun y => Rdbl.sub (Rdbl.val 1) y)

/-- Vectorised logarithm pass `p = Rcpp::log(p)`. -/
def mapLog (p : List Rdbl) : List Rdbl := p.map Rdbl.logR

/-- Vectorised exponential pass `p = Rcpp::exp(p)`. -/
def mapExp (p : List Rdbl) : List Rdbl := p.map Rdbl.expR

/-- Embedding of the fatal check idiom `is_true(any(v <= 0))`: comparisons
with NA/NaN are false, matching is_true applied to an R `any` result. -/
def anyLeZero (v : List Rdbl) : Prop := ∃ e ∈ v, Rdbl.le e (Rdbl.val 0)

/-- Embedding of `is_true(any(v < 0))`. -/
def anyLtZero (v : List Rdbl) : Prop := ∃ e ∈ v, Rdbl.lt e (Rdbl.val 0)

/-- Embedding of `is_true(any(v > 1))`. -/
def anyGtOne (v : List Rdbl) : Prop := ∃ e ∈ v, Rdbl.lt (Rdbl.val 1) e

/-- Embedding of the pairwise check `is_true(any(u < w))` on two recycled
vectors. -/
def anyPairLt (u w : List Rdbl) : Prop :=
  ∃ i < max u.length w.length, Rdbl.lt (cyc u i) (cyc w i)

/- ------------------------------------------------------------------ -/
/- Lomax distribution (lomax-distribution.cpp, old-style file: no
   missingness guards in the kernels, fatal parameter checks in the
   wrappers, in-place transform of p in the quantile wrapper). -/

/-- Kernel cdf_lomax: `1-(1+lambda*x)^-kappa` for x > 0, else 0.  The source
has no missingness guard, so an NA evaluation point falls into the else
branch (a comparison with NA is false). -/
def cdf_lomax (x lambda kappa : Rdbl) : Rdbl :=
  if Rdbl.lt (Rdbl.val 0) x then
    Rdbl.val (1 - (1 + lambda.re * x.re) ^ (-kappa.re))
  else Rdbl.val 0

/-- Kernel invcdf_lomax: `((1-p)^(-1/kappa)-1) / lambda`, no guards. -/
def invcdf_lomax (p lambda kappa : Rdbl) : Rdbl :=
  Rdbl.val (((1 - p.re) ^ (-1 / kappa.re) - 1) / lambda.re)

/-- Kernel logpdf_lomax: `log(lambda) + log(kappa) - log(1+lambda*x)*(kappa+1)`
for x > 0, else -INFINITY. -/
def logpdf_lomax (x lambda kappa : Rdbl) : Rdbl :=
  if Rdbl.lt (Rdbl.val 0) x then
    Rdbl.val (Real.log lambda.re + Real.log kappa.re
      - Real.log (1 + lambda.re * x.re) * (kappa.re + 1))
  else Rdbl.ninf

/-- Message of the fatal Lomax parameter check. -/
def lomaxErr : String := "Values of x, lambda and kappa should be > 0."

/-- Wrapper cpp_dlomax: fatal check, recycled evaluation of logpdf_lomax,
optional exponentiation. -/
def cpp_dlomax (x lambda kappa : List Rdbl) (log_prob : Bool) :
    Except String (List Rdbl) :=
  if anyLeZero lambda ∨ anyLeZero kappa then Except.error lomaxErr
  else
    let Nmax := max x.length (max lambda.length kappa.length)
    let p := (List.range Nmax).map
      (fun i => logpdf_lomax (cyc x i) (cyc lambda i) (cyc kappa i))
    Except.ok (if log_prob then p else mapExp p)

/-- Wrapper cpp_plomax: fatal check, recycled evaluation of cdf_lomax,
optional complement and log passes. -/
def cpp_plomax (x lambda kappa : List Rdbl) (lower_tail log_prob : Bool) :
    Except String (List Rdbl) :=
  if anyLeZero lambda ∨ anyLeZero kappa then Except.error lomaxErr
  else
    let Nmax := max x.length (max lambda.length kappa.length)
    let p := (List.range Nmax).map
      (fun i => cdf_lomax (cyc x i) (cyc lambda i) (cyc kappa i))
    let p1 := if lower_tail then p else mapComp p
    Except.ok (if log_prob then mapLog p1 else p1)

/-- Wrapper cpp_qlomax.  The source transforms the caller vector p in place
(no clone), so the embedding returns the pair (q, final state of p). -/
def cpp_qlomax (p lambda kappa : List Rdbl) (lower_tail log_prob : Bool) :
    Except String (List Rdbl × List Rdbl) :=
  if anyLeZero lambda ∨ anyLeZero kappa then Except.error lomaxErr
  else
    let Nmax := max p.length (max lambda.length kappa.length)
    let p1 := if log_prob then mapExp p else p
    let p2 := if lower_tail then p1 else mapComp p1
    let q := (List.range Nmax).map
      (fun i => invcdf_lomax (cyc p2 i) (cyc lambda i) (cyc kappa i))
    Except.ok (q, p2)

/- ------------------------------------------------------------------ -/
/- Gumbel distribution (gumbel-distribution.cpp, new-style file:
   missingness guards, per-element NaN for invalid sigma, clone of p in
   the quantile wrapper). -/

/-- Kernel pdf_gumbel: NA propagation, NaN with warning for sigma <= 0,
0 for non-finite x, else the Gumbel density. -/
def pdf_gumbel (x mu sigma : Rdbl) : Rdbl :=
  if x.isnan || mu.isnan || sigma.isnan then Rdbl.na
  else if Rdbl.le sigma (Rdbl.val 0) then Rdbl.nan
  else if !x.finite then Rdbl.val 0
  else
    Rdbl.val (Real.exp (-((x.re - mu.re) / sigma.re +
      Real.exp (-((x.re - mu.re) / sigma.re)))) / sigma.re)

/-- Kernel cdf_gumbel: NA propagation, NaN for sigma <= 0, else
`exp(-exp(-z))` with `z = (x-mu)/sigma`. -/
def cdf_gumbel (x mu sigma : Rdbl) : Rdbl :=
  if x.isnan || mu.isnan || sigma.isnan then Rdbl.na
  else if Rdbl.le sigma (Rdbl.val 0) then Rdbl.nan
  else Rdbl.val (Real.exp (-Real.exp (-((x.re - mu.re) / sigma.re))))

/-- Kernel invcdf_gumbel: NA propagation, NaN for sigma <= 0 or p outside
[0,1], else `mu - sigma * log(-log(p))`. -/
def invcdf_gumbel (p mu sigma : Rdbl) : Rdbl :=
  if p.isnan || mu.isnan || sigma.isnan then Rdbl.na
  else if Rdbl.le sigma (Rdbl.val 0) ∨ Rdbl.lt p (Rdbl.val 0) ∨
      Rdbl.lt (Rdbl.val 1) p then Rdbl.nan
  else Rdbl.val (mu.re - sigma.re * Real.log (-Real.log p.re))

/-- Wrapper cpp_dgumbel: no fatal check, recycled evaluation of
pdf_gumbel, optional log pass. -/
def cpp_dgumbel (x mu sigma : List Rdbl) (log_prob : Bool) : List Rdbl :=
  let Nmax := max x.length (max mu.length sigma.length)
  let p := (List.range Nmax).map
    (fun i => pdf_gumbel (cyc x i) (cyc mu i) (cyc sigma i))
  if log_prob then mapLog p else p

/-- Wrapper cpp_qgumbel: clones p, so the caller vector (second component
of the returned pair) is untouched. -/
def cpp_qgumbel (p mu sigma : List Rdbl) (lower_tail log_prob : Bool) :
    List Rdbl × List Rdbl :=
  let Nmax := max p.length (max mu.length sigma.length)
  let pp1 := if log_prob then mapExp p else p
  let pp2 := if lower_tail then pp1 else mapComp pp1
  ((List.range Nmax).map
    (fun i => invcdf_gumbel (cyc pp2 i) (cyc mu i) (cyc sigma i)), p)

/- ------------------------------------------------------------------ -/
/- Power distribution, current variant (second part of
   discrete-weibull-distribution.cpp: missingness guards, log-scale cdf
   kernel, clone of p in the quantile wrapper). -/

/-- Kernel logcdf_power of the current power file. -/
def logcdf_power (x alpha beta : Rdbl) : Rdbl :=
  if x.isnan || alpha.isnan || beta.isnan then Rdbl.na
  else if Rdbl.le x (Rdbl.val 0) then Rdbl.ninf
  else if Rdbl.le alpha x then Rdbl.val 0
  else Rdbl.val (Real.log x.re * beta.re - Real.log alpha.re * beta.re)

/-- Kernel cdf_power of the current power file. -/
def cdf_power (x alpha beta : Rdbl) : Rdbl :=
  if x.isnan || alpha.isnan || beta.isnan then Rdbl.na
  else if Rdbl.le x (Rdbl.val 0) then Rdbl.val 0
  else if Rdbl.le alpha x then Rdbl.val 1
  else Rdbl.val (x.re ^ beta.re / alpha.re ^ beta.re)

/-- Kernel invcdf_power of the current power file: NaN for p outside [0,1],
else `alpha * p^(1/beta)`. -/
def invcdf_power (p alpha beta : Rdbl) : Rdbl :=
  if p.isnan || alpha.isnan || beta.isnan then Rdbl.na
  else if Rdbl.lt p (Rdbl.val 0) ∨ Rdbl.lt (Rdbl.val 1) p then Rdbl.nan
  else Rdbl.val (alpha.re * p.re ^ (1 / beta.re))

/-- Wrapper cpp_ppower of the current power file.  The kernel result is on
the log scale and the complement pass `p = 1.0 - p` is applied to it BEFORE
the exponentiation `p = exp(p)`, exactly as in the source. -/
def cpp_ppower (x alpha beta : List Rdbl) (lower_tail log_prob : Bool) :
    List Rdbl :=
  let Nmax := max x.length (max alpha.length beta.length)
  let p := (List.range Nmax).map
    (fun i => logcdf_power (cyc x i) (cyc alpha i) (cyc beta i))
  let p1 := if lower_tail then p else mapComp p
  if log_prob then p1 else mapExp p1

/-- Wrapper cpp_qpower of the current power file: clones p. -/
def cpp_qpower (p alpha beta : List Rdbl) (lower_tail log_prob : Bool) :
    List Rdbl × List Rdbl :=
  let Nmax := max p.length (max alpha.length beta.length)
  let pp1 := if log_prob then mapExp p else p
  let pp2 := if lower_tail then pp1 else mapComp pp1
  ((List.range Nmax).map
    (fun i => invcdf_power (cyc pp2 i) (cyc alpha i) (cyc beta i)), p)

/-- Kernel invcdf_power of the superseded power file (part_000 of the
unnamed sources): no guards. -/
def invcdf_power_v0 (p alpha beta : Rdbl) : Rdbl :=
  Rdbl.val (alpha.re * p.re ^ (1 / beta.re))

/-- Wrapper cpp_qpower of the superseded power file: transforms the caller
vector p in place (no clone), no fatal check. -/
def cpp_qpower_v0 (p alpha beta : List Rdbl) (lower_tail log_prob : Bool) :
    List Rdbl × List Rdbl :=
  let Nmax := max p.length (max alpha.length beta.length)
  let p1 := if log_prob then mapExp p else p
  let p2 := if lower_tail then p1 else mapComp p1
  ((List.range Nmax).map
    (fun i => invcdf_power_v0 (cyc p2 i) (cyc alpha i) (cyc beta i)), p2)

/- ------------------------------------------------------------------ -/
/- Discrete Weibull distribution (first part of
   discrete-weibull-distribution.cpp, new-style). -/

/-- Modelled from the spec: the helper isInteger of shared.h, a header that
is not present under src/.  It decides the integrality requirement of the
discrete distributions ("non-integer where integrality required", fractional
values get probability 0); an R double is integral when it equals its own
floor, the C idiom `floor(x) == x` under IEEE comparison. -/
def isIntegerR (x : Rdbl) : Prop := Rdbl.eqq (Rdbl.floorR x) x

/-- Embedding of the C library ceil on finite reals. -/
def cceil (x : ℝ) : ℝ := ((⌈x⌉ : ℤ) : ℝ)

/-- Embedding of the C library floor on finite reals. -/
def cfloor (x : ℝ) : ℝ := ((⌊x⌋ : ℤ) : ℝ)

/-- Kernel pdf_dweibull: NA propagation, NaN for invalid q or beta, 0 for
negative or fractional x, else `q^(x^beta) - q^((x+1)^beta)`. -/
def pdf_dweibull (x q beta : Rdbl) : Rdbl :=
  if x.isnan || q.isnan || beta.isnan then Rdbl.na
  else if Rdbl.le q (Rdbl.val 0) ∨ Rdbl.le (Rdbl.val 1) q ∨
      Rdbl.le beta (Rdbl.val 0) then Rdbl.nan
  else if ¬ isIntegerR x ∨ Rdbl.lt x (Rdbl.val 0) then Rdbl.val 0
  else Rdbl.val (q.re ^ (x.re ^ beta.re) - q.re ^ ((x.re + 1) ^ beta.re))

/-- Kernel cdf_dweibull: NA propagation, NaN for invalid q or beta, 0 for
x < 0, else `1 - q^((x+1)^beta)`. -/
def cdf_dweibull (x q beta : Rdbl) : Rdbl :=
  if x.isnan || q.isnan || beta.isnan then Rdbl.na
  else if Rdbl.le q (Rdbl.val 0) ∨ Rdbl.le (Rdbl.val 1) q ∨
      Rdbl.le beta (Rdbl.val 0) then Rdbl.nan
  else if Rdbl.lt x (Rdbl.val 0) then Rdbl.val 0
  else Rdbl.val (1 - q.re ^ ((x.re + 1) ^ beta.re))

/-- Kernel invcdf_dweibull: NA propagation, NaN for invalid parameters or p
outside [0,1], the special case p = 0 returning 0, else the ceil-based
closed form. -/
def invcdf_dweibull (p q beta : Rdbl) : Rdbl :=
  if p.isnan || q.isnan || beta.isnan then Rdbl.na
  else if Rdbl.le q (Rdbl.val 0) ∨ Rdbl.le (Rdbl.val 1) q ∨
      Rdbl.le beta (Rdbl.val 0) ∨ Rdbl.lt p (Rdbl.val 0) ∨
      Rdbl.lt (Rdbl.val 1) p then Rdbl.nan
  else if Rdbl.eqq p (Rdbl.val 0) then Rdbl.val 0
  else Rdbl.val (cceil ((Real.log (1 - p.re) / Real.log q.re) ^ (1 / beta.re) - 1))

/-- Wrapper cpp_ddweibull: no fatal check, recycled evaluation of
pdf_dweibull, optional log pass. -/
def cpp_ddweibull (x q beta : List Rdbl) (log_prob : Bool) : List Rdbl :=
  let Nmax := max x.length (max q.length beta.length)
  let p := (List.range Nmax).map
    (fun i => pdf_dweibull (cyc x i) (cyc q i) (cyc beta i))
  if log_prob then mapLog p else p

/-- Wrapper cpp_qdweibull: clones p. -/
def cpp_qdweibull (p q beta : List Rdbl) (lower_tail log_prob : Bool) :
    List Rdbl × List Rdbl :=
  let Nmax := max p.length (max q.length beta.length)
  let pp1 := if log_prob then mapExp p else p
  let pp2 := if lower_tail then pp1 else mapComp pp1
  ((List.range Nmax).map
    (fun i => invcdf_dweibull (cyc pp2 i) (cyc q i) (cyc beta i)), p)

/- ------------------------------------------------------------------ -/
/- Discrete uniform distribution (part_001 of the unnamed sources,
   new-style). -/

/-- Validity test shared by the discrete uniform kernels: min > max, an
infinite bound, or a fractional bound is a domain violation. -/
def dunifBadParams (mn mx : Rdbl) : Prop :=
  Rdbl.lt mx mn ∨ mn.isinf = true ∨ mx.isinf = true ∨
    ¬ Rdbl.eqq (Rdbl.floorR mn) mn ∨ ¬ Rdbl.eqq (Rdbl.floorR mx) mx

/-- Kernel pmf_dunif. -/
def pmf_dunif (x mn mx : Rdbl) : Rdbl :=
  if x.isnan || mn.isnan || mx.isnan then Rdbl.na
  else if dunifBadParams mn mx then Rdbl.nan
  else if Rdbl.lt x mn ∨ Rdbl.lt mx x ∨ ¬ isIntegerR x then Rdbl.val 0
  else Rdbl.val (1 / (mx.re - mn.re + 1))

/-- Kernel cdf_dunif: 0 below min, 1 at or above max, else
`(floor(x)-min+1)/(max-min+1)`. -/
def cdf_dunif (x mn mx : Rdbl) : Rdbl :=
  if x.isnan || mn.isnan || mx.isnan then Rdbl.na
  else if dunifBadParams mn mx then Rdbl.nan
  else if Rdbl.lt x mn then Rdbl.val 0
  else if Rdbl.le mx x then Rdbl.val 1
  else Rdbl.val ((cfloor x.re - mn.re + 1) / (mx.re - mn.re + 1))

/-- Kernel invcdf_dunif: the special case p = 0 or min = max returning min,
else the ceil-based closed form. -/
def invcdf_dunif (p mn mx : Rdbl) : Rdbl :=
  if p.isnan || mn.isnan || mx.isnan then Rdbl.na
  else if Rdbl.lt mx mn ∨ mn.isinf = true ∨ mx.isinf = true ∨
      ¬ Rdbl.eqq (Rdbl.floorR mn) mn ∨ ¬ Rdbl.eqq (Rdbl.floorR mx) mx ∨
      Rdbl.lt p (Rdbl.val 0) ∨ Rdbl.lt (Rdbl.val 1) p then Rdbl.nan
  else if Rdbl.eqq p (Rdbl.val 0) ∨ Rdbl.eqq mn mx then mn
  else Rdbl.val (cceil (p.re * (mx.re - mn.re + 1) + mn.re - 1))

/-- Wrapper cpp_ddunif: no fatal check, recycled evaluation of pmf_dunif,
optional log pass. -/
def cpp_ddunif (x mn mx : List Rdbl) (log_prob : Bool) : List Rdbl :=
  let Nmax := max x.length (max mn.length mx.length)
  let p := (List.range Nmax).map
    (fun i => pmf_dunif (cyc x i) (cyc mn i) (cyc mx i))
  if log_prob then mapLog p else p

/-- Wrapper cpp_qdunif: clones p. -/
def cpp_qdunif (p mn mx : List Rdbl) (lower_tail log_prob : Bool) :
    List Rdbl × List Rdbl :=
  let Nmax := max p.length (max mn.length mx.length)
  let pp1 := if log_prob then mapExp p else p
  let pp2 := if lower_tail then pp1 else mapComp pp1
  ((List.range Nmax).map
    (fun i => invcdf_dunif (cyc pp2 i) (cyc mn i) (cyc mx i)), p)

/- ------------------------------------------------------------------ -/
/- Gompertz distribution (gompertz-distribution.cpp, new-style). -/

/-- Kernel pdf_gompertz: NA propagation, NaN with warning for a <= 0 or
b <= 0, 0 for negative or non-finite x, else
`a*exp(b*x - a/b*(exp(b*x)-1))`. -/
def pdf_gompertz (x a b : Rdbl) : Rdbl :=
  if x.isnan || a.isnan || b.isnan then Rdbl.na
  else if Rdbl.le a (Rdbl.val 0) ∨ Rdbl.le b (Rdbl.val 0) then Rdbl.nan
  else if Rdbl.lt x (Rdbl.val 0) ∨ !x.finite then Rdbl.val 0
  else Rdbl.val (a.re * Real.exp (b.re * x.re -
    a.re / b.re * (Real.exp (b.re * x.re) - 1)))

/-- Kernel cdf_gompertz. -/
def cdf_gompertz (x a b : Rdbl) : Rdbl :=
  if x.isnan || a.isnan || b.isnan then Rdbl.na
  else if Rdbl.le a (Rdbl.val 0) ∨ Rdbl.le b (Rdbl.val 0) then Rdbl.nan
  else if Rdbl.lt x (Rdbl.val 0) then Rdbl.val 0
  else if !x.finite then Rdbl.val 1
  else Rdbl.val (1 - Real.exp (-a.re / b.re * (Real.exp (b.re * x.re) - 1)))

/-- Kernel invcdf_gompertz. -/
def invcdf_gompertz (p a b : Rdbl) : Rdbl :=
  if p.isnan || a.isnan || b.isnan then Rdbl.na
  else if Rdbl.le a (Rdbl.val 0) ∨ Rdbl.le b (Rdbl.val 0) ∨
      Rdbl.lt p (Rdbl.val 0) ∨ Rdbl.lt (Rdbl.val 1) p then Rdbl.nan
  else Rdbl.val (1 / b.re * Real.log (1 - b.re / a.re * Real.log (1 - p.re)))

/-- Kernel logpdf_gompertz. -/
def logpdf_gompertz (x a b : Rdbl) : Rdbl :=
  if x.isnan || a.isnan || b.isnan then Rdbl.na
  else if Rdbl.le a (Rdbl.val 0) ∨ Rdbl.le b (Rdbl.val 0) then Rdbl.nan
  else if Rdbl.lt x (Rdbl.val 0) ∨ !x.finite then Rdbl.ninf
  else Rdbl.val (Real.log a.re + (b.re * x.re -
    a.re / b.re * (Real.exp (b.re * x.re) - 1)))

/-- Wrapper cpp_dgompertz: no fatal check, recycled evaluation of
logpdf_gompertz, optional exponentiation. -/
def cpp_dgompertz (x a b : List Rdbl) (log_prob : Bool) : List Rdbl :=
  let Nmax := max x.length (max a.length b.length)
  let p := (List.range Nmax).map
    (fun i => logpdf_gompertz (cyc x i) (cyc a i) (cyc b i))
  if log_prob then p else mapExp p

/-- Wrapper cpp_qgompertz: clones p. -/
def cpp_qgompertz (p a b : List Rdbl) (lower_tail log_prob : Bool) :
    List Rdbl × List Rdbl :=
  let Nmax := max p.length (max a.length b.length)
  let pp1 := if log_prob then mapExp p else p
  let pp2 := if lower_tail then pp1 else mapComp pp1
  ((List.range Nmax).map
    (fun i => invcdf_gompertz (cyc pp2 i) (cyc a i) (cyc b i)), p)

/- ------------------------------------------------------------------ -/
/- Kumaraswamy distribution (second part of
   truncated-normal-distribution.cpp, old-style). -/

/-- Kernel cdf_kumar: `1-(1-x^a)^b` on [0,1], else 0; no missingness
guard. -/
def cdf_kumar (x a b : Rdbl) : Rdbl :=
  if Rdbl.le (Rdbl.val 0) x ∧ Rdbl.le x (Rdbl.val 1) then
    Rdbl.val (1 - (1 - x.re ^ a.re) ^ b.re)
  else Rdbl.val 0

/-- Kernel invcdf_kumar: `pow(1 - pow(1-p, 1/b), 1/a)`, no guards. -/
def invcdf_kumar (p a b : Rdbl) : Rdbl :=
  Rdbl.val ((1 - (1 - p.re) ^ (1 / b.re)) ^ (1 / a.re))

/-- Message of the fatal probability range check. -/
def probErr : String := "Probabilities should range from 0 to 1."

/-- Message of the fatal Kumaraswamy parameter check. -/
def kumarErr : String := "Values of a and b should be > 0."

/-- Wrapper cpp_qkumar: fatal checks, then transforms the caller vector p
in place (no clone). -/
def cpp_qkumar (p a b : List Rdbl) (lower_tail log_prob : Bool) :
    Except String (List Rdbl × List Rdbl) :=
  if anyLtZero p ∨ anyGtOne p then Except.error probErr
  else if anyLeZero a ∨ anyLeZero b then Except.error kumarErr
  else
    let Nmax := max p.length (max a.length b.length)
    let p1 := if log_prob then mapExp p else p
    let p2 := if lower_tail then p1 else mapComp p1
    Except.ok ((List.range Nmax).map
      (fun i => invcdf_kumar (cyc p2 i) (cyc a i) (cyc b i)), p2)

/- ------------------------------------------------------------------ -/
/- Truncated normal distribution (first part of
   truncated-normal-distribution.cpp, old-style).  The standard normal
   CDF Phi and inverse CDF InvPhi are external collaborators (R::pnorm,
   R::qnorm) and are passed as explicit parameters. -/

/-- Constant pisq of the source: `sqrt(2*M_PI)` (the name is the one used
in the source). -/
def pisq : ℝ := Real.sqrt (2 * Real.pi)

/-- Kernel pdf_tnorm: the truncated normal density on (a,b), else 0; no
missingness guard. -/
def pdf_tnorm (Phi : ℝ → ℝ) (x mu sigma a b : Rdbl) : Rdbl :=
  if Rdbl.lt a x ∧ Rdbl.lt x b then
    Rdbl.val (Real.exp (-(x.re - mu.re) ^ (2 : ℕ) / (2 * sigma.re ^ (2 : ℕ))) /
      (pisq * sigma.re *
        (Phi ((b.re - mu.re) / sigma.re) - Phi ((a.re - mu.re) / sigma.re))))
  else Rdbl.val 0

/-- Kernel cdf_tnorm: `(Phi(z) - Phi(za))/(Phi(zb) - Phi(za))` on (a,b),
else 0; no missingness guard. -/
def cdf_tnorm (Phi : ℝ → ℝ) (x mu sigma a b : Rdbl) : Rdbl :=
  if Rdbl.lt a x ∧ Rdbl.lt x b then
    Rdbl.val ((Phi ((x.re - mu.re) / sigma.re) - Phi ((a.re - mu.re) / sigma.re)) /
      (Phi ((b.re - mu.re) / sigma.re) - Phi ((a.re - mu.re) / sigma.re)))
  else Rdbl.val 0

/-- Kernel invcdf_tnorm:
`InvPhi(Phi(za) + p * (Phi(zb) - Phi(za)))`, no guards. -/
def invcdf_tnorm (Phi InvPhi : ℝ → ℝ) (p mu sigma a b : Rdbl) : Rdbl :=
  Rdbl.val (InvPhi (Phi ((a.re - mu.re) / sigma.re) +
    p.re * (Phi ((b.re - mu.re) / sigma.re) - Phi ((a.re - mu.re) / sigma.re))))

/-- Message of the fatal bound-order check of the truncated normal file. -/
def tnormAbErr : String := "Values of b have to be greater than a."

/-- Message of the fatal sigma check of the truncated normal file. -/
def tnormSigmaErr : String := "Value of sigma should > 0."

/-- Wrapper cpp_dtnorm.  The source sets `na = mu.length()` and
`nb = sigma.length()` (sic) and allocates the output with length
`x.length()` although the loop bound is Nmax (sic); the out-of-bound
writes of that loop, undefined behaviour in C++, are modelled as dropped,
leaving one write per index below n. -/
def cpp_dtnorm (Phi : ℝ → ℝ) (x mu sigma a b : List Rdbl)
    (log_prob : Bool) : Except String (List Rdbl) :=
  if anyPairLt b a then Except.error tnormAbErr
  else if anyLeZero sigma then Except.error tnormSigmaErr
  else
    let n := x.length
    let nm := mu.length
    let ns := sigma.length
    let naa := mu.length
    let nbb := sigma.length
    let p := (List.range n).map (fun i =>
      pdf_tnorm Phi (x.getD (i % n) Rdbl.nan) (mu.getD (i % nm) Rdbl.nan)
        (sigma.getD (i % ns) Rdbl.nan) (a.getD (i % naa) Rdbl.nan)
        (b.getD (i % nbb) Rdbl.nan))
    Except.ok (if log_prob then mapLog p else p)

/-- Wrapper cpp_qtnorm.  The source computes `q[i] = cdf_tnorm(p[i % n], …)`
(sic: the cdf kernel, not invcdf_tnorm), allocates q with length
`p.length()`, and only afterwards applies the complement and log passes to
the caller vector p itself (no clone); the pair returned is (q, final state
of p). -/
def cpp_qtnorm (Phi : ℝ → ℝ) (p mu sigma a b : List Rdbl)
    (lower_tail log_prob : Bool) : Except String (List Rdbl × List Rdbl) :=
  if anyLtZero p ∨ anyGtOne p then Except.error probErr
  else if anyPairLt b a then Except.error tnormAbErr
  else if anyLeZero sigma then Except.error tnormSigmaErr
  else
    let n := p.length
    let nm := mu.length
    let ns := sigma.length
    let naa := mu.length
    let nbb := sigma.length
    let q := (List.range n).map (fun i =>
      cdf_tnorm Phi (p.getD (i % n) Rdbl.nan) (mu.getD (i % nm) Rdbl.nan)
        (sigma.getD (i % ns) Rdbl.nan) (a.getD (i % naa) Rdbl.nan)
        (b.getD (i % nbb) Rdbl.nan))
    let p1 := if lower_tail then p else mapComp p
    let p2 := if log_prob then mapLog p1 else p1
    Except.ok (q, p2)

/- ------------------------------------------------------------------ -/
/- Mixture of normals (mixture-of-normal-distributions.cpp).  The normal
   density R::dnorm, the normal CDF R::pnorm and the random streams are
   external collaborators passed as parameters. -/

/-- Matrix of R doubles, as used for the mixture parameters. -/
structure RMatrix where
  nrow : ℕ
  ncol : ℕ
  entry : ℕ → ℕ → Rdbl

/-- Outcome of the per-row parameter scan of the mixture functions. -/
inductive RowScan where
  | missing
  | wrong
  | ok (tot : ℝ)

/-- Embedding of the component loop of cpp_dmixnorm: walk the components in
order, stop at the first missing entry or at the first invalid entry
(alpha < 0 or sigma <= 0), otherwise accumulate the alpha total. -/
def rowScanD (al mu si : ℕ → Rdbl) : List ℕ → ℝ → RowScan
  | [], acc => RowScan.ok acc
  | j :: js, acc =>
    if (al j).isnan || (mu j).isnan || (si j).isnan then RowScan.missing
    else if Rdbl.lt (al j) (Rdbl.val 0) ∨ Rdbl.le (si j) (Rdbl.val 0) then
      RowScan.wrong
    else rowScanD al mu si js (acc + (al j).re)

/-- Embedding of the component loop of cpp_pmixnorm and cpp_rmixnorm, whose
invalidity test on sigma is strict (`sigma < 0`). -/
def rowScanP (al mu si : ℕ → Rdbl) : List ℕ → ℝ → RowScan
  | [], acc => RowScan.ok acc
  | j :: js, acc =>
    if (al j).isnan || (mu j).isnan || (si j).isnan then RowScan.missing
    else if Rdbl.lt (al j) (Rdbl.val 0) ∨ Rdbl.lt (si j) (Rdbl.val 0) then
      RowScan.wrong
    else rowScanP al mu si js (acc + (al j).re)

/-- Message of the fatal shape check of the mixture functions (quote
characters of the source message omitted). -/
def mixErr : String := "sizes of mu, sigma, and alpha do not match"

/-- Wrapper cpp_dmixnorm.  The evaluation point is indexed `x[i]` without
recycling, as in the source; an out-of-range read yields the NaN default
here.  The shape check is performed before any element is computed. -/
def cpp_dmixnorm (dnorm : Rdbl → Rdbl → Rdbl → ℝ) (x : List Rdbl)
    (mu sigma alpha : RMatrix) (log_prob : Bool) :
    Except String (List Rdbl) :=
  let n := x.length
  let nm := mu.nrow
  let ns := sigma.nrow
  let naa := alpha.nrow
  let Nmax := max n (max nm (max ns naa))
  let k := alpha.ncol
  if k ≠ mu.ncol ∨ k ≠ sigma.ncol then Except.error mixErr
  else
    let p := (List.range Nmax).map (fun i =>
      let st := rowScanD (fun j => alpha.entry (i % naa) j)
        (fun j => mu.entry (i % nm) j) (fun j => sigma.entry (i % ns) j)
        (List.range k) 0
      if st = RowScan.missing ∨ (x.getD i Rdbl.nan).isnan then Rdbl.na
      else
        match st with
        | RowScan.missing => Rdbl.na
        | RowScan.wrong => Rdbl.nan
        | RowScan.ok tot => Rdbl.val (∑ j ∈ Finset.range k,
            (alpha.entry (i % naa) j).re / tot *
              dnorm (x.getD i Rdbl.nan) (mu.entry (i % nm) j)
                (sigma.entry (i % ns) j)))
    Except.ok (if log_prob then mapLog p else p)

/-- Wrapper cpp_pmixnorm.  The lower_tail flag is passed to the per
component R::pnorm AND the complement pass `p = 1.0 - p` is applied
afterwards, exactly as in the source. -/
def cpp_pmixnorm (pnorm : Rdbl → Rdbl → Rdbl → Bool → ℝ) (x : List Rdbl)
    (mu sigma alpha : RMatrix) (lower_tail log_prob : Bool) :
    Except String (List Rdbl) :=
  let n := x.length
  let nm := mu.nrow
  let ns := sigma.nrow
  let naa := alpha.nrow
  let Nmax := max n (max nm (max ns naa))
  let k := alpha.ncol
  if k ≠ mu.ncol ∨ k ≠ sigma.ncol then Except.error mixErr
  else
    let p := (List.range Nmax).map (fun i =>
      let st := rowScanP (fun j => alpha.entry (i % naa) j)
        (fun j => mu.entry (i % nm) j) (fun j => sigma.entry (i % ns) j)
        (List.range k) 0
      if st = RowScan.missing ∨ (x.getD i Rdbl.nan).isnan then Rdbl.na
      else
        match st with
        | RowScan.missing => Rdbl.na
        | RowScan.wrong => Rdbl.nan
        | RowScan.ok tot => Rdbl.val (∑ j ∈ Finset.range k,
            (alpha.entry (i % naa) j).re / tot *
              pnorm (x.getD i Rdbl.nan) (mu.entry (i % nm) j)
                (sigma.entry (i % ns) j) lower_tail))
    let p1 := if lower_tail then p else mapComp p
    Except.ok (if log_prob then mapLog p1 else p1)

/-- Embedding of the component selection loop of cpp_rmixnorm: walk the
components from last to first, subtracting the normalised weight from a
running total that starts at 1, and select the first component where the
drawn uniform exceeds the running total (0 when the loop falls through). -/
def pickComp (w : ℕ → ℝ) (u : ℝ) : List ℕ → ℝ → ℕ
  | [], _ => 0
  | j :: js, ptmp =>
    let ptmp2 := ptmp - w j
    if ptmp2 < u then j else pickComp w u js ptmp2

/-- Wrapper cpp_rmixnorm.  The uniform draw happens at the top of each
iteration; the `ISNAN(x[i])` test of the source reads the zero-initialised
output vector and is therefore always false.  The shape check is performed
before any element is computed. -/
def cpp_rmixnorm (rnormF : Rdbl → Rdbl → ℕ → ℝ) (unif : ℕ → ℝ) (n : ℕ)
    (mu sigma alpha : RMatrix) : Except String (List Rdbl) :=
  let nm := mu.nrow
  let ns := sigma.nrow
  let naa := alpha.nrow
  let k := alpha.ncol
  if k ≠ mu.ncol ∨ k ≠ sigma.ncol then Except.error mixErr
  else
    Except.ok ((List.range n).map (fun i =>
      let st := rowScanP (fun j => alpha.entry (i % naa) j)
        (fun j => mu.entry (i % nm) j) (fun j => sigma.entry (i % ns) j)
        (List.range k) 0
      match st with
      | RowScan.missing => Rdbl.na
      | RowScan.wrong => Rdbl.nan
      | RowScan.ok tot =>
        let jj := pickComp (fun j => (alpha.entry (i % naa) j).re / tot)
          (unif i) (List.range k).reverse 1
        Rdbl.val (rnormF (mu.entry (i % nm) jj) (sigma.entry (i % ns) jj) i)))

/- ------------------------------------------------------------------ -/
/- Helper lemmas. -/

/-- Auxiliary: a disjunction of ISNAN facts gives the boolean guard. -/
lemma isnan_or3 {a b c : Rdbl} (h : a.isnan = true ∨ b.isnan = true ∨ c.isnan = true) :
    (a.isnan || b.isnan || c.isnan) = true := by
  rcases h with h | h | h <;> simp [h]

/-- Auxiliary: reading a mapped range list below its length. -/
lemma getD_map_range {α : Type} (f : ℕ → α) {N j : ℕ} (h : j < N) (d : α) :
    ((List.range N).map f).getD j d = f j := by
  rw [List.getD_eq_getElem?_getD, List.getElem?_map, List.getElem?_range h]
  rfl

/- ------------------------------------------------------------------ -/
/- Claim C3 (corrected): missing-value propagation. -/

/-- Claim C3 counterexample: the claim asserts that an NA evaluation point
forces an NA output element for EVERY distribution, but the Lomax
cumulative wrapper (whose kernel cdf_lomax has no missingness guard) maps
a missing evaluation point to 0, not to NA: the NA falls into the
`else return 0` branch because IEEE comparisons with NA are false. -/
theorem cdf_lomax_na_gives_zero :
    cpp_plomax [Rdbl.na] [Rdbl.val 1] [Rdbl.val 1] true false =
      Except.ok [Rdbl.val 0] ∧ Rdbl.val 0 ≠ Rdbl.na := by
  constructor
  · norm_num [cpp_plomax, anyLeZero, Rdbl.le, cyc, cdf_lomax, Rdbl.lt,
      List.range_succ]
  · simp

/-- Claim C3 amended: for the distributions whose kernels carry explicit
missingness guards (Gumbel, discrete Weibull, Gompertz, discrete uniform,
and the current power file), a missing evaluation point or parameter at an
index forces the NA output; the Lomax, Kumaraswamy and truncated-normal
kernels have no such guard, and a missing evaluation point there falls
through the failed IEEE comparisons into the out-of-support branch: their
cumulative kernels and pdf_tnorm return 0, and logpdf_lomax returns
negative infinity, instead of NA. -/
theorem missing_value_propagation :
    (∀ x mu sigma : Rdbl,
      x.isnan = true ∨ mu.isnan = true ∨ sigma.isnan = true →
      pdf_gumbel x mu sigma = Rdbl.na ∧ cdf_gumbel x mu sigma = Rdbl.na ∧
        invcdf_gumbel x mu sigma = Rdbl.na) ∧
    (∀ x q beta : Rdbl,
      x.isnan = true ∨ q.isnan = true ∨ beta.isnan = true →
      pdf_dweibull x q beta = Rdbl.na ∧ cdf_dweibull x q beta = Rdbl.na ∧
        invcdf_dweibull x q beta = Rdbl.na) ∧
    (∀ x a b : Rdbl,
      x.isnan = true ∨ a.isnan = true ∨ b.isnan = true →
      pdf_gompertz x a b = Rdbl.na ∧ cdf_gompertz x a b = Rdbl.na ∧
        invcdf_gompertz x a b = Rdbl.na ∧ logpdf_gompertz x a b = Rdbl.na) ∧
    (∀ x mn mx : Rdbl,
      x.isnan = true ∨ mn.isnan = true ∨ mx.isnan = true →
      pmf_dunif x mn mx = Rdbl.na ∧ cdf_dunif x mn mx = Rdbl.na ∧
        invcdf_dunif x mn mx = Rdbl.na) ∧
    (∀ x alpha beta : Rdbl,
      x.isnan = true ∨ alpha.isnan = true ∨ beta.isnan = true →
      logcdf_power x alpha beta = Rdbl.na ∧ cdf_power x alpha beta = Rdbl.na ∧
        invcdf_power x alpha beta = Rdbl.na) ∧
    (∀ lambda kappa : Rdbl,
      cdf_lomax Rdbl.na lambda kappa = Rdbl.val 0 ∧
      logpdf_lomax Rdbl.na lambda kappa = Rdbl.ninf) ∧
    (∀ a b : Rdbl, cdf_kumar Rdbl.na a b = Rdbl.val 0) ∧
    (∀ (Phi : ℝ → ℝ) (mu sigma a b : Rdbl),
      cdf_tnorm Phi Rdbl.na mu sigma a b = Rdbl.val 0 ∧
      pdf_tnorm Phi Rdbl.na mu sigma a b = Rdbl.val 0) := by
  refine ⟨?_, ?_, ?_, ?_, ?_, ?_, ?_, ?_⟩
  · intro u v w h
    simp [pdf_gumbel, cdf_gumbel, invcdf_gumbel, isnan_or3 h]
  · intro u v w h
    simp [pdf_dweibull, cdf_dweibull, invcdf_dweibull, isnan_or3 h]
  · intro u v w h
    simp [pdf_gompertz, cdf_gompertz, invcdf_gompertz, logpdf_gompertz,
      isnan_or3 h]
  · intro u v w h
    simp [pmf_dunif, cdf_dunif, invcdf_dunif, isnan_or3 h]
  · intro u v w h
    simp [logcdf_power, cdf_power, invcdf_power, isnan_or3 h]
  · intro lambda kappa
    refine ⟨?_, ?_⟩
    · rw [cdf_lomax, if_neg]
      intro h
      exact h
    · rw [logpdf_lomax, if_neg]
      intro h
      exact h
  · intro a b
    rw [cdf_kumar, if_neg]
    rintro ⟨h1, h2⟩
    exact h1
  · intro Phi mu sigma a b
    refine ⟨?_, ?_⟩
    · rw [cdf_tnorm, if_neg]
      rintro ⟨h1, h2⟩
      cases a <;> exact h1
    · rw [pdf_tnorm, if_neg]
      rintro ⟨h1, h2⟩
      cases a <;> exact h1

/-- Claim C3 witness: the Gumbel density at a missing evaluation point with
valid parameters is NA, and the Lomax cumulative kernel at a missing
evaluation point with valid parameters is 0. -/
theorem missing_value_propagation_witness :
    pdf_gumbel Rdbl.na (Rdbl.val 0) (Rdbl.val 1) = Rdbl.na ∧
    cdf_lomax Rdbl.na (Rdbl.val 1) (Rdbl.val 1) = Rdbl.val 0 :=
  ⟨(missing_value_propagation.1 Rdbl.na (Rdbl.val 0) (Rdbl.val 1)
      (Or.inl rfl)).1,
   (missing_value_propagation.2.2.2.2.2.1 (Rdbl.val 1) (Rdbl.val 1)).1⟩

/- ------------------------------------------------------------------ -/
/- Claim C4 (corrected): per-element domain violations. -/

/-- Claim C4 counterexample: the claim asserts that an invalid parameter is
non-fatal for EVERY distribution, but the Lomax density wrapper performs a
fatal whole-vector check and aborts with an error when any lambda is
non-positive, producing no output at all. -/
theorem dlomax_invalid_param_fatal :
    cpp_dlomax [Rdbl.val 1] [Rdbl.val (-1)] [Rdbl.val 1] false =
      Except.error lomaxErr := by
  rw [cpp_dlomax, if_pos]
  exact Or.inl ⟨Rdbl.val (-1), by simp, by norm_num [Rdbl.le]⟩

/-- Claim C4 amended: for the distributions with per-element validation
(Gompertz, Gumbel, discrete Weibull, discrete uniform, and the mixture
density), the wrapper never aborts, every output element is computed
solely from the recycled inputs at its own index, and a non-missing
parameter violating its domain at an index yields NaN for exactly that
element; the Lomax, Kumaraswamy and truncated-normal wrappers instead
abort the whole call with a fatal error when any parameter is invalid. -/
theorem per_element_domain_violation :
    (∀ (x a b : List Rdbl) (lp : Bool),
      (cpp_dgompertz x a b lp).length =
        max x.length (max a.length b.length)) ∧
    (∀ (x a b : List Rdbl) (j : ℕ),
      j < max x.length (max a.length b.length) →
      (cpp_dgompertz x a b false).getD j Rdbl.na =
        Rdbl.expR (logpdf_gompertz (cyc x j) (cyc a j) (cyc b j))) ∧
    (∀ x a b : ℝ, a ≤ 0 ∨ b ≤ 0 →
      Rdbl.expR (logpdf_gompertz (Rdbl.val x) (Rdbl.val a) (Rdbl.val b)) =
        Rdbl.nan) ∧
    (∀ x a b : ℝ, 0 < a → 0 < b → 0 ≤ x →
      Rdbl.expR (logpdf_gompertz (Rdbl.val x) (Rdbl.val a) (Rdbl.val b)) =
        Rdbl.val (Real.exp (Real.log a +
          (b * x - a / b * (Real.exp (b * x) - 1))))) ∧
    (∀ (x mu sigma : List Rdbl) (lp : Bool),
      (cpp_dgumbel x mu sigma lp).length =
        max x.length (max mu.length sigma.length)) ∧
    (∀ (x mu sigma : List Rdbl) (j : ℕ),
      j < max x.length (max mu.length sigma.length) →
      (cpp_dgumbel x mu sigma false).getD j Rdbl.na =
        pdf_gumbel (cyc x j) (cyc mu j) (cyc sigma j)) ∧
    (∀ x mu sigma : ℝ, sigma ≤ 0 →
      pdf_gumbel (Rdbl.val x) (Rdbl.val mu) (Rdbl.val sigma) = Rdbl.nan) ∧
    (∀ (x q beta : List Rdbl) (lp : Bool),
      (cpp_ddweibull x q beta lp).length =
        max x.length (max q.length beta.length)) ∧
    (∀ (x q beta : List Rdbl) (j : ℕ),
      j < max x.length (max q.length beta.length) →
      (cpp_ddweibull x q beta false).getD j Rdbl.na =
        pdf_dweibull (cyc x j) (cyc q j) (cyc beta j)) ∧
    (∀ x q beta : ℝ, q ≤ 0 ∨ 1 ≤ q ∨ beta ≤ 0 →
      pdf_dweibull (Rdbl.val x) (Rdbl.val q) (Rdbl.val beta) = Rdbl.nan) ∧
    (∀ (x mn mx : List Rdbl) (lp : Bool),
      (cpp_ddunif x mn mx lp).length =
        max x.length (max mn.length mx.length)) ∧
    (∀ (x mn mx : List Rdbl) (j : ℕ),
      j < max x.length (max mn.length mx.length) →
      (cpp_ddunif x mn mx false).getD j Rdbl.na =
        pmf_dunif (cyc x j) (cyc mn j) (cyc mx j)) ∧
    (∀ x mn mx : ℝ, mx < mn →
      pmf_dunif (Rdbl.val x) (Rdbl.val mn) (Rdbl.val mx) = Rdbl.nan) ∧
    (∀ (dnorm : Rdbl → Rdbl → Rdbl → ℝ) (x : List Rdbl)
      (mu sigma alpha : RMatrix) (lp : Bool),
      alpha.ncol = mu.ncol → alpha.ncol = sigma.ncol →
      (cpp_dmixnorm dnorm x mu sigma alpha lp).map List.length =
        Except.ok (max x.length (max mu.nrow (max sigma.nrow alpha.nrow)))) ∧
    (∀ (dnorm : Rdbl → Rdbl → Rdbl → ℝ) (x : List Rdbl)
      (mu sigma alpha : RMatrix) (i : ℕ),
      alpha.ncol = mu.ncol → alpha.ncol = sigma.ncol →
      i < max x.length (max mu.nrow (max sigma.nrow alpha.nrow)) →
      rowScanD (fun j => alpha.entry (i % alpha.nrow) j)
        (fun j => mu.entry (i % mu.nrow) j)
        (fun j => sigma.entry (i % sigma.nrow) j)
        (List.range alpha.ncol) 0 = RowScan.wrong →
      (x.getD i Rdbl.nan).isnan = false →
      (cpp_dmixnorm dnorm x mu sigma alpha false).map
        (fun l => l.getD i Rdbl.na) = Except.ok Rdbl.nan) ∧
    (∀ (x lambda kappa : List Rdbl) (lp : Bool),
      anyLeZero lambda ∨ anyLeZero kappa →
      cpp_dlomax x lambda kappa lp = Except.error lomaxErr) ∧
    (∀ (p a b : List Rdbl) (lt lp : Bool),
      ¬ (anyLtZero p ∨ anyGtOne p) → anyLeZero a ∨ anyLeZero b →
      cpp_qkumar p a b lt lp = Except.error kumarErr) ∧
    (∀ (Phi : ℝ → ℝ) (x mu sigma a b : List Rdbl) (lp : Bool),
      ¬ anyPairLt b a → anyLeZero sigma →
      cpp_dtnorm Phi x mu sigma a b lp = Except.error tnormSigmaErr) := by
  refine ⟨?_, ?_, ?_, ?_, ?_, ?_, ?_, ?_, ?_, ?_, ?_, ?_, ?_, ?_, ?_,
    ?_, ?_, ?_⟩
  · intro x a b lp
    rcases lp <;> simp [cpp_dgompertz, mapExp]
  · intro x a b j hj
    simp only [cpp_dgompertz, if_neg (Bool.false_ne_true), mapExp,
      List.map_map]
    rw [getD_map_range _ hj]
    rfl
  · intro x a b h
    have hle : Rdbl.le (Rdbl.val a) (Rdbl.val 0) ∨
        Rdbl.le (Rdbl.val b) (Rdbl.val 0) := h
    simp [logpdf_gompertz, Rdbl.isnan, hle, Rdbl.expR]
  · intro x a b ha hb hx
    have h1 : ¬ (Rdbl.le (Rdbl.val a) (Rdbl.val 0) ∨
        Rdbl.le (Rdbl.val b) (Rdbl.val 0)) := by
      rintro (h | h) <;> exact absurd h (by simp [Rdbl.le]; linarith)
    simp [logpdf_gompertz, Rdbl.isnan, h1, Rdbl.lt, Rdbl.finite,
      Rdbl.expR, Rdbl.re, not_lt.mpr hx]
  · intro x mu sigma lp
    rcases lp <;> simp [cpp_dgumbel, mapLog]
  · intro x mu sigma j hj
    simp only [cpp_dgumbel, if_neg (Bool.false_ne_true)]
    rw [getD_map_range _ hj]
  · intro x mu sigma h
    have hle : Rdbl.le (Rdbl.val sigma) (Rdbl.val 0) := h
    simp [pdf_gumbel, Rdbl.isnan, hle]
  · intro x q beta lp
    rcases lp <;> simp [cpp_ddweibull, mapLog]
  · intro x q beta j hj
    simp only [cpp_ddweibull, if_neg (Bool.false_ne_true)]
    rw [getD_map_range _ hj]
  · intro x q beta h
    have hle : Rdbl.le (Rdbl.val q) (Rdbl.val 0) ∨
        Rdbl.le (Rdbl.val 1) (Rdbl.val q) ∨
        Rdbl.le (Rdbl.val beta) (Rdbl.val 0) := h
    simp [pdf_dweibull, Rdbl.isnan, hle]
  · intro x mn mx lp
    rcases lp <;> simp [cpp_ddunif, mapLog]
  · intro x mn mx j hj
    simp only [cpp_ddunif, if_neg (Bool.false_ne_true)]
    rw [getD_map_range _ hj]
  · intro x mn mx h
    have hlt : Rdbl.lt (Rdbl.val mx) (Rdbl.val mn) := h
    simp [pmf_dunif, dunifBadParams, Rdbl.isnan, hlt]
  · intro dnorm x mu sigma alpha lp hm hs
    have hcond : ¬ (alpha.ncol ≠ mu.ncol ∨ alpha.ncol ≠ sigma.ncol) := by
      rintro (h | h)
      exacts [h hm, h hs]
    simp only [cpp_dmixnorm]
    rw [if_neg hcond]
    rcases lp <;> simp [mapLog, Except.map]
  · intro dnorm x mu sigma alpha i hm hs hi hscan hx
    have hcond : ¬ (alpha.ncol ≠ mu.ncol ∨ alpha.ncol ≠ sigma.ncol) := by
      rintro (h | h)
      exacts [h hm, h hs]
    simp only [cpp_dmixnorm]
    rw [if_neg hcond]
    simp only [Except.map]
    rw [if_neg (Bool.false_ne_true)]
    rw [getD_map_range _ hi]
    rw [hscan]
    rw [List.getD_eq_getElem?_getD] at hx
    simp [hx]
  · intro x lambda kappa lp h
    rw [cpp_dlomax, if_pos h]
  · intro p a b lt lp hp h
    rw [cpp_qkumar, if_neg hp, if_pos h]
  · intro Phi x mu sigma a b lp hba h
    rw [cpp_dtnorm, if_neg hba, if_pos h]

/-- Claim C4 witness: a Gompertz call and a Gumbel call with an invalid
shape parameter at their only index yield NaN for that element with no
abort, while the Lomax density call aborts fatally. -/
theorem per_element_domain_violation_witness :
    (cpp_dgompertz [Rdbl.val 1] [Rdbl.val (-1)] [Rdbl.val 1] false).getD 0
      Rdbl.na = Rdbl.nan ∧
    (cpp_dgumbel [Rdbl.val 1] [Rdbl.val 0] [Rdbl.val (-1)] false).getD 0
      Rdbl.na = Rdbl.nan ∧
    cpp_dlomax [Rdbl.val 1] [Rdbl.val (-1)] [Rdbl.val 1] true =
      Except.error lomaxErr := by
  obtain ⟨-, hgompGetD, hgompNan, -, -, hgumGetD, hgumNan, -, -, -, -, -, -,
    -, -, hlomax, -, -⟩ := per_element_domain_violation
  refine ⟨?_, ?_, ?_⟩
  · rw [hgompGetD [Rdbl.val 1] [Rdbl.val (-1)] [Rdbl.val 1] 0 (by norm_num)]
    have h2 := hgompNan 1 (-1) 1 (Or.inl (by norm_num))
    simpa [cyc] using h2
  · rw [hgumGetD [Rdbl.val 1] [Rdbl.val 0] [Rdbl.val (-1)] 0 (by norm_num)]
    have h2 := hgumNan 1 0 (-1) (by norm_num)
    simpa [cyc] using h2
  · exact hlomax [Rdbl.val 1] [Rdbl.val (-1)] [Rdbl.val 1] true
      (Or.inl ⟨Rdbl.val (-1), by simp, by norm_num [Rdbl.le]⟩)

/- ------------------------------------------------------------------ -/
/- Claim C1 (code bug): upper-tail complement. -/

/-- Claim C1 probe: the current cpp_ppower applies the complement pass
`p = 1.0 - p` to the LOG-scale kernel result before exponentiating, so at
x = 1/2, alpha = beta = 1 the lower-tail result is the valid probability
1/2 while the upper-tail result is exp(1 - log(1/2)) = 2e, not the
complement 1 - 1/2 demanded by the claim.  (cpp_pmixnorm likewise fails
the claim: it passes lower_tail to the per-component R::pnorm AND applies
the complement pass afterwards, returning the lower-tail value again.) -/
theorem ppower_upper_tail_not_complement :
    cpp_ppower [Rdbl.val (1 / 2)] [Rdbl.val 1] [Rdbl.val 1] true false =
      [Rdbl.val (1 / 2)] ∧
    cpp_ppower [Rdbl.val (1 / 2)] [Rdbl.val 1] [Rdbl.val 1] false false =
      [Rdbl.val (Real.exp (1 - Real.log (1 / 2)))] ∧
    Real.exp (1 - Real.log (1 / 2)) ≠ 1 - 1 / 2 := by
  have hlog : Real.log ((1:ℝ) / 2) < 0 :=
    Real.log_neg (by norm_num) (by norm_num)
  refine ⟨?_, ?_, ?_⟩
  · norm_num [cpp_ppower, logcdf_power, cyc, List.range_succ, Rdbl.isnan,
      Rdbl.le, Rdbl.re, mapExp, Rdbl.expR, Real.exp_log]
  · norm_num [cpp_ppower, logcdf_power, cyc, List.range_succ, Rdbl.isnan,
      Rdbl.le, Rdbl.re, mapExp, mapComp, Rdbl.expR, Rdbl.sub]
  · intro h
    have h1 : (0:ℝ) < 1 - Real.log (1 / 2) := by linarith
    have h2 : (1:ℝ) < Real.exp (1 - Real.log (1 / 2)) := by
      calc (1:ℝ) = Real.exp 0 := Real.exp_zero.symm
      _ < Real.exp (1 - Real.log (1 / 2)) := Real.exp_lt_exp.mpr h1
    rw [h] at h2
    norm_num at h2

/- ------------------------------------------------------------------ -/
/- Claim C5 (code bug): the truncated-normal quantile. -/

/-- Claim C5 probe: cpp_qtnorm computes its output by calling cdf_tnorm on
the probabilities instead of invcdf_tnorm.  Instantiating the external
standard-normal CDF and inverse CDF with the identity function, at
p = 1/2, mu = 0, sigma = 1, a = -1, b = 1 the wrapper returns the cdf
value 3/4 whereas the formula of the claim (implemented by the unused
kernel invcdf_tnorm) gives 0. -/
theorem qtnorm_returns_cdf_not_invcdf :
    cpp_qtnorm (fun z => z) [Rdbl.val (1 / 2)] [Rdbl.val 0] [Rdbl.val 1]
        [Rdbl.val (-1)] [Rdbl.val 1] true false =
      Except.ok ([Rdbl.val (3 / 4)], [Rdbl.val (1 / 2)]) ∧
    invcdf_tnorm (fun z => z) (fun z => z) (Rdbl.val (1 / 2)) (Rdbl.val 0)
        (Rdbl.val 1) (Rdbl.val (-1)) (Rdbl.val 1) = Rdbl.val 0 ∧
    (3 / 4 : ℝ) ≠ 0 := by
  refine ⟨?_, ?_, by norm_num⟩
  · rw [cpp_qtnorm, if_neg, if_neg, if_neg]
    · norm_num [cdf_tnorm, cyc, List.range_succ, Rdbl.lt, Rdbl.re]
    · rintro ⟨e, he, h⟩
      simp at he
      subst he
      norm_num [Rdbl.le] at h
    · rintro ⟨i, hi, h⟩
      simp only [List.length_singleton, Nat.max_self, Nat.lt_one_iff] at hi
      subst hi
      norm_num [cyc, Rdbl.lt] at h
    · rintro (⟨e, he, h⟩ | ⟨e, he, h⟩) <;> simp at he <;> subst he <;>
        norm_num [Rdbl.lt] at h
  · norm_num [invcdf_tnorm, Rdbl.re]

/- ------------------------------------------------------------------ -/
/- Claim C2 (code bug): the broadcasting law. -/

/-- Claim C2 probe: the truncated-normal density wrapper violates the
broadcasting law.  It recycles a and b modulo the lengths of mu and sigma
(the source sets `na = mu.length()`, `nb = sigma.length()`), so with
x = [0,0], mu = [0], sigma = [1], a = [-1,-1/2], b = [1] both output
elements are computed from a[0] = -1 (value 1/(pisq*2)), whereas the law
demands that element 1 use a[1 mod 2] = -1/2, whose kernel value
1/(pisq*(3/2)) differs.  Moreover the output is allocated with the length
of x rather than Nmax: with x = [0] and mu = [0,0] the output has length
1 although max of the five lengths is 2. -/
theorem dtnorm_broadcasting_violated :
    cpp_dtnorm (fun z => z) [Rdbl.val 0, Rdbl.val 0] [Rdbl.val 0]
        [Rdbl.val 1] [Rdbl.val (-1), Rdbl.val (-1 / 2)] [Rdbl.val 1] false =
      Except.ok [Rdbl.val (1 / (pisq * 2)), Rdbl.val (1 / (pisq * 2))] ∧
    pdf_tnorm (fun z => z) (Rdbl.val 0) (Rdbl.val 0) (Rdbl.val 1)
        (Rdbl.val (-1 / 2)) (Rdbl.val 1) = Rdbl.val (1 / (pisq * (3 / 2))) ∧
    (1 : ℝ) / (pisq * 2) ≠ 1 / (pisq * (3 / 2)) ∧
    (cpp_dtnorm (fun z => z) [Rdbl.val 0] [Rdbl.val 0, Rdbl.val 0]
        [Rdbl.val 1] [Rdbl.val (-1)] [Rdbl.val 1] false).map List.length =
      Except.ok 1 ∧
    (1 : ℕ) ≠ max 1 (max 2 (max 1 (max 2 1))) := by
  have hp : 0 < pisq := Real.sqrt_pos.mpr (by positivity)
  refine ⟨?_, ?_, ?_, ?_, by decide⟩
  · rw [cpp_dtnorm, if_neg, if_neg]
    · norm_num [pdf_tnorm, Rdbl.lt, Rdbl.re, List.range_succ, Real.exp_zero]
    · rintro ⟨e, he, h⟩
      simp at he
      subst he
      norm_num [Rdbl.le] at h
    · rintro ⟨i, hi, h⟩
      simp only [List.length_cons, List.length_singleton, List.length_nil] at hi
      have : i = 0 ∨ i = 1 := by omega
      rcases this with rfl | rfl <;> norm_num [cyc, Rdbl.lt] at h
  · norm_num [pdf_tnorm, Rdbl.lt, Rdbl.re, Real.exp_zero]
  · intro h
    rw [div_eq_div_iff (by positivity) (by positivity)] at h
    nlinarith [hp]
  · rw [cpp_dtnorm, if_neg, if_neg]
    · simp [Except.map]
    · rintro ⟨e, he, h⟩
      simp at he
      subst he
      norm_num [Rdbl.le] at h
    · rintro ⟨i, hi, h⟩
      simp only [List.length_singleton, Nat.max_self, Nat.lt_one_iff] at hi
      subst hi
      norm_num [cyc, Rdbl.lt] at h

/- ------------------------------------------------------------------ -/
/- Claim C7 (confirmed): the mixture shape check is fatal and early. -/

/-- Claim C7: for all three mixture-of-normals operations, a mismatch of
the column counts of mu, sigma and alpha makes the whole call fail with
the single fatal shape error, raised before any output element is
computed; the error result carries no partial output. -/
theorem mixnorm_shape_mismatch_fatal
    (dnorm : Rdbl → Rdbl → Rdbl → ℝ) (pnorm : Rdbl → Rdbl → Rdbl → Bool → ℝ)
    (rnormF : Rdbl → Rdbl → ℕ → ℝ) (unif : ℕ → ℝ) (x : List Rdbl) (n : ℕ)
    (mu sigma alpha : RMatrix) (lt lp : Bool)
    (h : alpha.ncol ≠ mu.ncol ∨ alpha.ncol ≠ sigma.ncol) :
    cpp_dmixnorm dnorm x mu sigma alpha lp = Except.error mixErr ∧
    cpp_pmixnorm pnorm x mu sigma alpha lt lp = Except.error mixErr ∧
    cpp_rmixnorm rnormF unif n mu sigma alpha = Except.error mixErr := by
  refine ⟨?_, ?_, ?_⟩
  · simp only [cpp_dmixnorm]
    rw [if_pos h]
  · simp only [cpp_pmixnorm]
    rw [if_pos h]
  · simp only [cpp_rmixnorm]
    rw [if_pos h]

/-- Claim C7 witness: with a 2-column alpha against 1-column mu and sigma,
all three operations return the fatal shape error. -/
theorem mixnorm_shape_mismatch_fatal_witness :
    cpp_dmixnorm (fun _ _ _ => 0) [Rdbl.val 0]
        ⟨1, 1, fun _ _ => Rdbl.val 0⟩ ⟨1, 1, fun _ _ => Rdbl.val 1⟩
        ⟨1, 2, fun _ _ => Rdbl.val 1⟩ false = Except.error mixErr ∧
    cpp_pmixnorm (fun _ _ _ _ => 0) [Rdbl.val 0]
        ⟨1, 1, fun _ _ => Rdbl.val 0⟩ ⟨1, 1, fun _ _ => Rdbl.val 1⟩
        ⟨1, 2, fun _ _ => Rdbl.val 1⟩ true false = Except.error mixErr ∧
    cpp_rmixnorm (fun _ _ _ => 0) (fun _ => 0) 1
        ⟨1, 1, fun _ _ => Rdbl.val 0⟩ ⟨1, 1, fun _ _ => Rdbl.val 1⟩
        ⟨1, 2, fun _ _ => Rdbl.val 1⟩ = Except.error mixErr :=
  mixnorm_shape_mismatch_fatal (fun _ _ _ => 0) (fun _ _ _ _ => 0)
    (fun _ _ _ => 0) (fun _ => 0) [Rdbl.val 0] 1
    ⟨1, 1, fun _ _ => Rdbl.val 0⟩ ⟨1, 1, fun _ _ => Rdbl.val 1⟩
    ⟨1, 2, fun _ _ => Rdbl.val 1⟩ true false (Or.inl (by decide))

/- ------------------------------------------------------------------ -/
/- Claim C9 (corrected): quantile operations and their input vector. -/

/-- Claim C9 counterexample: the claim asserts that EVERY quantile
operation leaves the caller probability vector unchanged for every flag
combination, but cpp_qlomax transforms p in place: with log_prob = true
the caller p = [0] holds [exp 0] = [1] after the call. -/
theorem qlomax_mutates_input :
    (cpp_qlomax [Rdbl.val 0] [Rdbl.val 1] [Rdbl.val 1] true true).map
        Prod.snd = Except.ok [Rdbl.val 1] ∧
    Rdbl.val 1 ≠ Rdbl.val 0 := by
  constructor
  · rw [cpp_qlomax, if_neg]
    · norm_num [mapExp, Rdbl.expR, Except.map, Real.exp_zero]
    · rintro (⟨e, he, h⟩ | ⟨e, he, h⟩) <;> simp at he <;> subst he <;>
        norm_num [Rdbl.le] at h
  · simp

/-- Claim C9 amended: the quantile wrappers that clone their input
(Gumbel, discrete Weibull, Gompertz, discrete uniform, and the current
power file) leave the caller vector unchanged for every flag combination;
the in-place wrappers (Lomax, Kumaraswamy, truncated normal, and the
superseded power file) leave it unchanged only in the default
configuration lower_tail = true, log = false. -/
theorem quantile_input_preservation :
    (∀ (p mu sigma : List Rdbl) (lt lp : Bool),
      (cpp_qgumbel p mu sigma lt lp).2 = p) ∧
    (∀ (p q beta : List Rdbl) (lt lp : Bool),
      (cpp_qdweibull p q beta lt lp).2 = p) ∧
    (∀ (p a b : List Rdbl) (lt lp : Bool),
      (cpp_qgompertz p a b lt lp).2 = p) ∧
    (∀ (p mn mx : List Rdbl) (lt lp : Bool),
      (cpp_qdunif p mn mx lt lp).2 = p) ∧
    (∀ (p al be : List Rdbl) (lt lp : Bool),
      (cpp_qpower p al be lt lp).2 = p) ∧
    (∀ (p lam kap qout pout : List Rdbl),
      cpp_qlomax p lam kap true false = Except.ok (qout, pout) → pout = p) ∧
    (∀ (p a b qout pout : List Rdbl),
      cpp_qkumar p a b true false = Except.ok (qout, pout) → pout = p) ∧
    (∀ (Phi : ℝ → ℝ) (p mu sigma a b qout pout : List Rdbl),
      cpp_qtnorm Phi p mu sigma a b true false = Except.ok (qout, pout) →
        pout = p) ∧
    (∀ (p al be : List Rdbl),
      (cpp_qpower_v0 p al be true false).2 = p) := by
  refine ⟨fun _ _ _ _ _ => rfl, fun _ _ _ _ _ => rfl, fun _ _ _ _ _ => rfl,
    fun _ _ _ _ _ => rfl, fun _ _ _ _ _ => rfl, ?_, ?_, ?_,
    fun _ _ _ => rfl⟩
  · intro p lam kap qout pout h
    rw [cpp_qlomax] at h
    by_cases hc : anyLeZero lam ∨ anyLeZero kap
    · rw [if_pos hc] at h
      exact Except.noConfusion h
    · rw [if_neg hc] at h
      simp at h
      exact h.2.symm
  · intro p a b qout pout h
    rw [cpp_qkumar] at h
    by_cases h1 : anyLtZero p ∨ anyGtOne p
    · rw [if_pos h1] at h
      exact Except.noConfusion h
    · rw [if_neg h1] at h
      by_cases h2 : anyLeZero a ∨ anyLeZero b
      · rw [if_pos h2] at h
        exact Except.noConfusion h
      · rw [if_neg h2] at h
        simp at h
        exact h.2.symm
  · intro Phi p mu sigma a b qout pout h
    rw [cpp_qtnorm] at h
    by_cases h1 : anyLtZero p ∨ anyGtOne p
    · rw [if_pos h1] at h
      exact Except.noConfusion h
    · rw [if_neg h1] at h
      by_cases h2 : anyPairLt b a
      · rw [if_pos h2] at h
        exact Except.noConfusion h
      · rw [if_neg h2] at h
        by_cases h3 : anyLeZero sigma
        · rw [if_pos h3] at h
          exact Except.noConfusion h
        · rw [if_neg h3] at h
          simp at h
          exact h.2.symm

/-- Claim C9 witness: a concrete cpp_qlomax call in the default
configuration, returning its input vector unchanged. -/
theorem quantile_input_preservation_witness :
    ([Rdbl.val 0] : List Rdbl) = [Rdbl.val 0] := by
  have hcall : cpp_qlomax [Rdbl.val 0] [Rdbl.val 1] [Rdbl.val 1] true false =
      Except.ok ([invcdf_lomax (Rdbl.val 0) (Rdbl.val 1) (Rdbl.val 1)],
        [Rdbl.val 0]) := by
    rw [cpp_qlomax, if_neg]
    · simp [List.range_succ, cyc]
    · rintro (⟨e, he, h⟩ | ⟨e, he, h⟩) <;> simp at he <;> subst he <;>
        norm_num [Rdbl.le] at h
  exact quantile_input_preservation.2.2.2.2.2.1 [Rdbl.val 0] [Rdbl.val 1]
    [Rdbl.val 1] [invcdf_lomax (Rdbl.val 0) (Rdbl.val 1) (Rdbl.val 1)]
    [Rdbl.val 0] hcall

/- ------------------------------------------------------------------ -/
/- Claim C8 (confirmed): row normalisation of the mixture weights. -/

/-- Auxiliary: ISNAN is false on finite values. -/
@[simp] lemma isnan_val (x : ℝ) : (Rdbl.val x).isnan = false := rfl

/-- Auxiliary: the real component of a finite value. -/
@[simp] lemma re_val (x : ℝ) : (Rdbl.val x).re = x := rfl

/-- Auxiliary: the dmixnorm component scan commutes with a positive
uniform scaling of non-negative alpha entries; the accumulated total is
scaled by the same factor. -/
lemma rowScanD_scale (mu si : ℕ → Rdbl) (w : ℕ → ℝ) (c : ℝ) (hc : 0 < c)
    (hw : ∀ j, 0 ≤ w j) :
    ∀ (js : List ℕ) (acc : ℝ),
      rowScanD (fun j => Rdbl.val (c * w j)) mu si js (c * acc) =
        match rowScanD (fun j => Rdbl.val (w j)) mu si js acc with
        | RowScan.ok tot => RowScan.ok (c * tot)
        | s => s := by
  intro js
  induction js with
  | nil => intro acc; rfl
  | cons j js ih =>
    intro acc
    have hwc : ¬ Rdbl.lt (Rdbl.val (c * w j)) (Rdbl.val 0) := by
      show ¬ (c * w j < 0)
      exact not_lt.mpr (mul_nonneg hc.le (hw j))
    have hw0 : ¬ Rdbl.lt (Rdbl.val (w j)) (Rdbl.val 0) := by
      show ¬ (w j < 0)
      exact not_lt.mpr (hw j)
    cases hval : ((mu j).isnan || (si j).isnan) with
    | true =>
      have g1 : ((Rdbl.val (c * w j)).isnan || (mu j).isnan || (si j).isnan) = true := by
        rw [isnan_val, Bool.false_or]
        exact hval
      have g2 : ((Rdbl.val (w j)).isnan || (mu j).isnan || (si j).isnan) = true := by
        rw [isnan_val, Bool.false_or]
        exact hval
      simp only [rowScanD]
      rw [if_pos g1, if_pos g2]
    | false =>
      have g1 : ((Rdbl.val (c * w j)).isnan || (mu j).isnan || (si j).isnan) = false := by
        rw [isnan_val, Bool.false_or]
        exact hval
      have g2 : ((Rdbl.val (w j)).isnan || (mu j).isnan || (si j).isnan) = false := by
        rw [isnan_val, Bool.false_or]
        exact hval
      simp only [rowScanD]
      rw [g1, g2, if_neg Bool.false_ne_true, if_neg Bool.false_ne_true]
      by_cases hsi : Rdbl.le (si j) (Rdbl.val 0)
      · rw [if_pos (Or.inr hsi), if_pos (Or.inr hsi)]
      · rw [if_neg (not_or.mpr ⟨hwc, hsi⟩), if_neg (not_or.mpr ⟨hw0, hsi⟩)]
        simp only [re_val]
        rw [show c * acc + c * w j = c * (acc + w j) from (mul_add c acc (w j)).symm]
        exact ih (acc + w j)

/-- Claim C8: multiplying every entry of one row of alpha (all entries of
that row non-negative finite reals), the other rows unchanged, by one
positive constant leaves the mixture density output unchanged, because the
weights are normalised by the row total before use. -/
theorem dmixnorm_row_scaling_invariant
    (dnorm : Rdbl → Rdbl → Rdbl → ℝ) (x : List Rdbl)
    (mu sigma alpha alpha2 : RMatrix) (r : ℕ) (c : ℝ) (w : ℕ → ℝ)
    (lp : Bool)
    (hc : 0 < c)
    (hn : alpha2.nrow = alpha.nrow) (hk : alpha2.ncol = alpha.ncol)
    (hw : ∀ j, 0 ≤ w j)
    (hrow : ∀ j, alpha.entry r j = Rdbl.val (w j))
    (hrow2 : ∀ j, alpha2.entry r j = Rdbl.val (c * w j))
    (hother : ∀ i j, i ≠ r → alpha2.entry i j = alpha.entry i j)
    (hsum : 0 < ∑ j ∈ Finset.range alpha.ncol, w j) :
    cpp_dmixnorm dnorm x mu sigma alpha2 lp =
      cpp_dmixnorm dnorm x mu sigma alpha lp := by
  simp only [cpp_dmixnorm, hn, hk]
  by_cases hcond : alpha.ncol ≠ mu.ncol ∨ alpha.ncol ≠ sigma.ncol
  · rw [if_pos hcond, if_pos hcond]
  · rw [if_neg hcond, if_neg hcond]
    have hlist :
        (List.range (max x.length (max mu.nrow (max sigma.nrow alpha.nrow)))).map
          (fun i =>
            let st := rowScanD (fun j => alpha2.entry (i % alpha.nrow) j)
              (fun j => mu.entry (i % mu.nrow) j)
              (fun j => sigma.entry (i % sigma.nrow) j)
              (List.range alpha.ncol) 0
            if st = RowScan.missing ∨ (x.getD i Rdbl.nan).isnan then Rdbl.na
            else
              match st with
              | RowScan.missing => Rdbl.na
              | RowScan.wrong => Rdbl.nan
              | RowScan.ok tot => Rdbl.val (∑ j ∈ Finset.range alpha.ncol,
                  (alpha2.entry (i % alpha.nrow) j).re / tot *
                    dnorm (x.getD i Rdbl.nan) (mu.entry (i % mu.nrow) j)
                      (sigma.entry (i % sigma.nrow) j))) =
        (List.range (max x.length (max mu.nrow (max sigma.nrow alpha.nrow)))).map
          (fun i =>
            let st := rowScanD (fun j => alpha.entry (i % alpha.nrow) j)
              (fun j => mu.entry (i % mu.nrow) j)
              (fun j => sigma.entry (i % sigma.nrow) j)
              (List.range alpha.ncol) 0
            if st = RowScan.missing ∨ (x.getD i Rdbl.nan).isnan then Rdbl.na
            else
              match st with
              | RowScan.missing => Rdbl.na
              | RowScan.wrong => Rdbl.nan
              | RowScan.ok tot => Rdbl.val (∑ j ∈ Finset.range alpha.ncol,
                  (alpha.entry (i % alpha.nrow) j).re / tot *
                    dnorm (x.getD i Rdbl.nan) (mu.entry (i % mu.nrow) j)
                      (sigma.entry (i % sigma.nrow) j))) := by
      apply List.map_congr_left
      intro i _
      by_cases hr : i % alpha.nrow = r
      · rw [hr]
        simp only [hrow, hrow2]
        have hs := rowScanD_scale (fun j => mu.entry (i % mu.nrow) j)
          (fun j => sigma.entry (i % sigma.nrow) j) w c hc hw
          (List.range alpha.ncol) 0
        rw [mul_zero] at hs
        rw [hs]
        cases hst : rowScanD (fun j => Rdbl.val (w j))
            (fun j => mu.entry (i % mu.nrow) j)
            (fun j => sigma.entry (i % sigma.nrow) j)
            (List.range alpha.ncol) 0 with
        | missing => simp
        | wrong => simp
        | ok tot =>
          simp only [Rdbl.re]
          simp [mul_div_mul_left _ _ hc.ne']
      · have hrw : ∀ j, alpha2.entry (i % alpha.nrow) j =
            alpha.entry (i % alpha.nrow) j := fun j => hother _ j hr
        simp only [hrw]
    rw [hlist]

/-- Claim C8 witness: a concrete two-component mixture whose alpha row
[1, 1] is scaled by 2 to [2, 2], leaving the density output unchanged. -/
theorem dmixnorm_row_scaling_invariant_witness :
    cpp_dmixnorm (fun _ _ _ => 1) [Rdbl.val 0]
        ⟨1, 2, fun _ _ => Rdbl.val 0⟩ ⟨1, 2, fun _ _ => Rdbl.val 1⟩
        ⟨1, 2, fun i _ => if i = 0 then Rdbl.val 2 else Rdbl.val 1⟩ false =
      cpp_dmixnorm (fun _ _ _ => 1) [Rdbl.val 0]
        ⟨1, 2, fun _ _ => Rdbl.val 0⟩ ⟨1, 2, fun _ _ => Rdbl.val 1⟩
        ⟨1, 2, fun _ _ => Rdbl.val 1⟩ false :=
  dmixnorm_row_scaling_invariant (fun _ _ _ => 1) [Rdbl.val 0]
    ⟨1, 2, fun _ _ => Rdbl.val 0⟩ ⟨1, 2, fun _ _ => Rdbl.val 1⟩
    ⟨1, 2, fun _ _ => Rdbl.val 1⟩
    ⟨1, 2, fun i _ => if i = 0 then Rdbl.val 2 else Rdbl.val 1⟩
    0 2 (fun _ => 1) false (by norm_num) rfl rfl (fun _ => by norm_num)
    (fun _ => rfl) (fun _ => by norm_num) (fun i j h => by simp [h])
    (by norm_num [Finset.sum_const, Finset.card_range])

/- ------------------------------------------------------------------ -/
/- Claim C6 (confirmed): cumulative-after-quantile round trips. -/

/-- Auxiliary: finiteness of a finite value. -/
@[simp] lemma finite_val (x : ℝ) : (Rdbl.val x).finite = true := rfl

/-- Auxiliary: a finite value is not an infinity. -/
@[simp] lemma isinf_val (x : ℝ) : (Rdbl.val x).isinf = false := rfl

/-- Auxiliary: an integer-valued double equals its own floor. -/
lemma eqq_floor_int (n : ℤ) :
    Rdbl.eqq (Rdbl.floorR (Rdbl.val (n : ℝ))) (Rdbl.val (n : ℝ)) := by
  show ((⌊(n : ℝ)⌋ : ℤ) : ℝ) = (n : ℝ)
  rw [Int.floor_intCast]

/-- Auxiliary: Lomax round trip at the kernel level. -/
lemma lomax_rt (p lam kap : ℝ) (h0 : 0 < p) (h1 : p < 1)
    (hl : 0 < lam) (hk : 0 < kap) :
    cdf_lomax (invcdf_lomax (Rdbl.val p) (Rdbl.val lam) (Rdbl.val kap))
      (Rdbl.val lam) (Rdbl.val kap) = Rdbl.val p := by
  have h1p : (0:ℝ) < 1 - p := by linarith
  have hbase : (1:ℝ) < (1 - p) ^ (-1 / kap : ℝ) := by
    rw [Real.one_lt_rpow_iff_of_pos h1p]
    exact Or.inr ⟨by linarith, div_neg_of_neg_of_pos (by norm_num) hk⟩
  have ht : 0 < ((1 - p) ^ (-1 / kap : ℝ) - 1) / lam :=
    div_pos (by linarith) hl
  rw [invcdf_lomax]
  simp only [re_val]
  rw [cdf_lomax, if_pos (show Rdbl.lt (Rdbl.val 0)
    (Rdbl.val (((1 - p) ^ (-1 / kap : ℝ) - 1) / lam)) from ht)]
  simp only [re_val]
  congr 1
  rw [show 1 + lam * (((1 - p) ^ (-1 / kap : ℝ) - 1) / lam) =
      (1 - p) ^ (-1 / kap : ℝ) by field_simp]
  rw [← Real.rpow_mul h1p.le]
  rw [show (-1 / kap) * -kap = 1 by field_simp]
  rw [Real.rpow_one]
  ring

/-- Auxiliary: power round trip at the kernel level (current power
file). -/
lemma power_rt (p al be : ℝ) (h0 : 0 < p) (h1 : p < 1)
    (ha : 0 < al) (hb : 0 < be) :
    cdf_power (invcdf_power (Rdbl.val p) (Rdbl.val al) (Rdbl.val be))
      (Rdbl.val al) (Rdbl.val be) = Rdbl.val p := by
  have hu0 : 0 < p ^ (1 / be : ℝ) := Real.rpow_pos_of_pos h0 _
  have hu1 : p ^ (1 / be : ℝ) < 1 :=
    Real.rpow_lt_one h0.le h1 (by positivity)
  have ht0 : 0 < al * p ^ (1 / be : ℝ) := by positivity
  have htal : al * p ^ (1 / be : ℝ) < al := by nlinarith
  rw [invcdf_power, if_neg (by simp), if_neg (by
    rintro (h | h)
    · exact absurd (show p < 0 from h) (by linarith)
    · exact absurd (show (1:ℝ) < p from h) (by linarith))]
  simp only [re_val]
  rw [cdf_power, if_neg (by simp),
    if_neg (show ¬ Rdbl.le (Rdbl.val (al * p ^ (1 / be : ℝ))) (Rdbl.val 0)
      from not_le.mpr ht0),
    if_neg (show ¬ Rdbl.le (Rdbl.val al) (Rdbl.val (al * p ^ (1 / be : ℝ)))
      from not_le.mpr htal)]
  simp only [re_val]
  congr 1
  rw [Real.mul_rpow ha.le hu0.le, ← Real.rpow_mul h0.le,
    one_div_mul_cancel hb.ne', Real.rpow_one,
    mul_div_cancel_left₀ _ (ne_of_gt (Real.rpow_pos_of_pos ha be))]

/-- Auxiliary: Kumaraswamy round trip at the kernel level. -/
lemma kumar_rt (p a b : ℝ) (h0 : 0 < p) (h1 : p < 1)
    (ha : 0 < a) (hb : 0 < b) :
    cdf_kumar (invcdf_kumar (Rdbl.val p) (Rdbl.val a) (Rdbl.val b))
      (Rdbl.val a) (Rdbl.val b) = Rdbl.val p := by
  have h1p : (0:ℝ) < 1 - p := by linarith
  have hu0 : 0 < (1 - p) ^ (1 / b : ℝ) := Real.rpow_pos_of_pos h1p _
  have hu1 : (1 - p) ^ (1 / b : ℝ) < 1 :=
    Real.rpow_lt_one h1p.le (by linarith) (by positivity)
  have hbase : (0:ℝ) < 1 - (1 - p) ^ (1 / b : ℝ) := by linarith
  have ht0 : 0 < (1 - (1 - p) ^ (1 / b : ℝ)) ^ (1 / a : ℝ) :=
    Real.rpow_pos_of_pos hbase _
  have ht1 : (1 - (1 - p) ^ (1 / b : ℝ)) ^ (1 / a : ℝ) ≤ 1 :=
    Real.rpow_le_one hbase.le (by linarith) (by positivity)
  rw [invcdf_kumar]
  simp only [re_val]
  rw [cdf_kumar, if_pos ⟨(ht0.le :), (ht1 :)⟩]
  simp only [re_val]
  congr 1
  rw [show (((1 - (1 - p) ^ (1 / b : ℝ)) ^ (1 / a : ℝ)) ^ a) =
      1 - (1 - p) ^ (1 / b : ℝ) by
    rw [← Real.rpow_mul hbase.le, one_div_mul_cancel ha.ne', Real.rpow_one]]
  rw [show (1 : ℝ) - (1 - (1 - p) ^ (1 / b : ℝ)) = (1 - p) ^ (1 / b : ℝ)
    by ring]
  rw [← Real.rpow_mul h1p.le, one_div_mul_cancel hb.ne', Real.rpow_one]
  ring

/-- Auxiliary: Gumbel round trip at the kernel level. -/
lemma gumbel_rt (p mu sig : ℝ) (h0 : 0 < p) (h1 : p < 1) (hs : 0 < sig) :
    cdf_gumbel (invcdf_gumbel (Rdbl.val p) (Rdbl.val mu) (Rdbl.val sig))
      (Rdbl.val mu) (Rdbl.val sig) = Rdbl.val p := by
  have hlp : Real.log p < 0 := Real.log_neg h0 h1
  have hnl : 0 < -Real.log p := by linarith
  have hns : ¬ Rdbl.le (Rdbl.val sig) (Rdbl.val 0) := not_le.mpr hs
  rw [invcdf_gumbel, if_neg (by simp), if_neg (by
    rintro (h | h | h)
    · exact hns h
    · exact absurd (show p < 0 from h) (by linarith)
    · exact absurd (show (1:ℝ) < p from h) (by linarith))]
  simp only [re_val]
  rw [cdf_gumbel, if_neg (by simp), if_neg hns]
  simp only [re_val]
  congr 1
  rw [show (mu - sig * Real.log (-Real.log p) - mu) / sig =
      -Real.log (-Real.log p) by
    rw [show mu - sig * Real.log (-Real.log p) - mu =
        sig * -Real.log (-Real.log p) by ring,
      mul_div_cancel_left₀ _ hs.ne']]
  rw [neg_neg, Real.exp_log hnl, neg_neg, Real.exp_log h0]

/-- Auxiliary: Gompertz round trip at the kernel level. -/
lemma gompertz_rt (p a b : ℝ) (h0 : 0 < p) (h1 : p < 1)
    (ha : 0 < a) (hb : 0 < b) :
    cdf_gompertz (invcdf_gompertz (Rdbl.val p) (Rdbl.val a) (Rdbl.val b))
      (Rdbl.val a) (Rdbl.val b) = Rdbl.val p := by
  have h1p : (0:ℝ) < 1 - p := by linarith
  have hL : Real.log (1 - p) < 0 := Real.log_neg h1p (by linarith)
  have hS1 : (1:ℝ) < 1 - b / a * Real.log (1 - p) := by
    have hba : 0 < b / a := div_pos hb ha
    nlinarith
  have hS0 : (0:ℝ) < 1 - b / a * Real.log (1 - p) := by linarith
  have hga : ¬ (Rdbl.le (Rdbl.val a) (Rdbl.val 0) ∨
      Rdbl.le (Rdbl.val b) (Rdbl.val 0)) := by
    rintro (h | h)
    · exact absurd (show a ≤ 0 from h) (by linarith)
    · exact absurd (show b ≤ 0 from h) (by linarith)
  have ht0 : 0 < 1 / b * Real.log (1 - b / a * Real.log (1 - p)) :=
    mul_pos (by positivity) (Real.log_pos hS1)
  rw [invcdf_gompertz, if_neg (by simp), if_neg (by
    rintro (h | h | h | h)
    · exact hga (Or.inl h)
    · exact hga (Or.inr h)
    · exact absurd (show p < 0 from h) (by linarith)
    · exact absurd (show (1:ℝ) < p from h) (by linarith))]
  simp only [re_val]
  rw [cdf_gompertz, if_neg (by simp), if_neg hga,
    if_neg (show ¬ Rdbl.lt (Rdbl.val (1 / b *
      Real.log (1 - b / a * Real.log (1 - p)))) (Rdbl.val 0)
      from not_lt.mpr ht0.le),
    if_neg (by simp)]
  simp only [re_val]
  congr 1
  rw [show b * (1 / b * Real.log (1 - b / a * Real.log (1 - p))) =
      Real.log (1 - b / a * Real.log (1 - p)) by field_simp]
  rw [Real.exp_log hS0]
  rw [show -a / b * (1 - b / a * Real.log (1 - p) - 1) =
      Real.log (1 - p) by field_simp; ring]
  rw [Real.exp_log h1p]
  ring

/-- Auxiliary: discrete uniform round trip at the kernel level, up to
discretisation: the cumulative of the quantile is the smallest attainable
probability at or above p. -/
lemma dunif_rt (p : ℝ) (mn mx : ℤ) (h0 : 0 < p) (h1 : p < 1)
    (hmn : mn ≤ mx) :
    cdf_dunif (invcdf_dunif (Rdbl.val p) (Rdbl.val (mn : ℝ))
        (Rdbl.val (mx : ℝ))) (Rdbl.val (mn : ℝ)) (Rdbl.val (mx : ℝ)) =
      Rdbl.val ((⌈p * ((mx : ℝ) - (mn : ℝ) + 1)⌉ : ℝ) /
        ((mx : ℝ) - (mn : ℝ) + 1)) ∧
    p ≤ (⌈p * ((mx : ℝ) - (mn : ℝ) + 1)⌉ : ℝ) /
        ((mx : ℝ) - (mn : ℝ) + 1) ∧
    (⌈p * ((mx : ℝ) - (mn : ℝ) + 1)⌉ : ℝ) / ((mx : ℝ) - (mn : ℝ) + 1) <
      p + 1 / ((mx : ℝ) - (mn : ℝ) + 1) := by
  have hNcast : ((mx : ℝ) - (mn : ℝ) + 1) = ((mx - mn + 1 : ℤ) : ℝ) := by
    push_cast
    ring
  have hN0 : (0:ℝ) < (mx : ℝ) - (mn : ℝ) + 1 := by
    rw [hNcast]
    exact_mod_cast (show (0:ℤ) < mx - mn + 1 by omega)
  have hpN0 : 0 < p * ((mx : ℝ) - (mn : ℝ) + 1) := mul_pos h0 hN0
  have hceil1 : (0:ℤ) < ⌈p * ((mx : ℝ) - (mn : ℝ) + 1)⌉ :=
    Int.ceil_pos.mpr hpN0
  have hceilK : ⌈p * ((mx : ℝ) - (mn : ℝ) + 1)⌉ ≤ mx - mn + 1 := by
    rw [Int.ceil_le, ← hNcast]
    nlinarith
  have hfl := eqq_floor_int mn
  have hfr := eqq_floor_int mx
  have hltf : ¬ ((mx : ℝ) < (mn : ℝ)) := by
    exact_mod_cast not_lt.mpr hmn
  refine ⟨?_, ?_, ?_⟩
  · by_cases hEq : mn = mx
    · subst hEq
      have heqq : Rdbl.eqq (Rdbl.val (mn : ℝ)) (Rdbl.val (mn : ℝ)) := by
        show (mn : ℝ) = (mn : ℝ)
        rfl
      have hinv : invcdf_dunif (Rdbl.val p) (Rdbl.val (mn : ℝ))
          (Rdbl.val (mn : ℝ)) = Rdbl.val (mn : ℝ) := by
        norm_num [invcdf_dunif, Rdbl.isnan, Rdbl.lt, hfl, heqq,
          not_lt.mpr h0.le, not_lt.mpr h1.le]
      have hcdf : cdf_dunif (Rdbl.val (mn : ℝ)) (Rdbl.val (mn : ℝ))
          (Rdbl.val (mn : ℝ)) = Rdbl.val 1 := by
        norm_num [cdf_dunif, dunifBadParams, Rdbl.isnan, Rdbl.lt, Rdbl.le,
          hfl]
      rw [hinv, hcdf]
      congr 1
      rw [show (mn : ℝ) - (mn : ℝ) + 1 = 1 by ring, mul_one]
      rw [show ⌈p⌉ = (1:ℤ) by
        rw [Int.ceil_eq_iff]
        exact ⟨by push_cast; linarith, by push_cast; linarith⟩]
      norm_num
    · have hmnlt : mn < mx := lt_of_le_of_ne hmn hEq
      have hneqq : ¬ Rdbl.eqq (Rdbl.val (mn : ℝ)) (Rdbl.val (mx : ℝ)) := by
        show ¬ ((mn : ℝ) = (mx : ℝ))
        exact_mod_cast ne_of_lt hmnlt
      have hne0 : ¬ Rdbl.eqq (Rdbl.val p) (Rdbl.val 0) := by
        show ¬ (p = 0)
        exact h0.ne'
      have hinv : invcdf_dunif (Rdbl.val p) (Rdbl.val (mn : ℝ))
          (Rdbl.val (mx : ℝ)) =
          Rdbl.val (cceil (p * ((mx : ℝ) - (mn : ℝ) + 1) + (mn : ℝ) - 1)) := by
        norm_num [invcdf_dunif, Rdbl.isnan, Rdbl.lt, hfl, hfr, hneqq, hne0,
          hltf, not_lt.mpr h0.le, not_lt.mpr h1.le]
      have hcc : cceil (p * ((mx : ℝ) - (mn : ℝ) + 1) + (mn : ℝ) - 1) =
          ((⌈p * ((mx : ℝ) - (mn : ℝ) + 1)⌉ + mn - 1 : ℤ) : ℝ) := by
        rw [cceil, show p * ((mx : ℝ) - (mn : ℝ) + 1) + (mn : ℝ) - 1 =
          p * ((mx : ℝ) - (mn : ℝ) + 1) + ((mn - 1 : ℤ) : ℝ) by
            push_cast; ring, Int.ceil_add_int]
        push_cast
        ring
      rw [hinv, hcc]
      have hxge : ¬ Rdbl.lt
          (Rdbl.val ((⌈p * ((mx : ℝ) - (mn : ℝ) + 1)⌉ + mn - 1 : ℤ) : ℝ))
          (Rdbl.val (mn : ℝ)) := by
        show ¬ (((⌈p * ((mx : ℝ) - (mn : ℝ) + 1)⌉ + mn - 1 : ℤ) : ℝ) < (mn : ℝ))
        exact_mod_cast (show ¬ (⌈p * ((mx : ℝ) - (mn : ℝ) + 1)⌉ + mn - 1 < mn)
          by omega)
      by_cases hCK : ⌈p * ((mx : ℝ) - (mn : ℝ) + 1)⌉ = mx - mn + 1
      · have hxmx : Rdbl.le (Rdbl.val (mx : ℝ))
            (Rdbl.val ((⌈p * ((mx : ℝ) - (mn : ℝ) + 1)⌉ + mn - 1 : ℤ) : ℝ)) := by
          show (mx : ℝ) ≤ ((⌈p * ((mx : ℝ) - (mn : ℝ) + 1)⌉ + mn - 1 : ℤ) : ℝ)
          exact_mod_cast (show mx ≤ ⌈p * ((mx : ℝ) - (mn : ℝ) + 1)⌉ + mn - 1
            by omega)
        have hcdf : cdf_dunif
            (Rdbl.val ((⌈p * ((mx : ℝ) - (mn : ℝ) + 1)⌉ + mn - 1 : ℤ) : ℝ))
            (Rdbl.val (mn : ℝ)) (Rdbl.val (mx : ℝ)) = Rdbl.val 1 := by
          norm_num [cdf_dunif, dunifBadParams, Rdbl.isnan, hfl, hfr, hltf,
            not_lt.mpr hmn, Rdbl.lt, Rdbl.le]
          rw [if_neg (by exact_mod_cast
              (show ¬ (⌈p * ((mx : ℝ) - (mn : ℝ) + 1)⌉ + mn - 1 < mn)
                by omega)),
            if_pos (by exact_mod_cast
              (show mx ≤ ⌈p * ((mx : ℝ) - (mn : ℝ) + 1)⌉ + mn - 1 by omega))]
        rw [hcdf]
        congr 1
        rw [hCK, hNcast]
        exact (div_self (show ((mx - mn + 1 : ℤ) : ℝ) ≠ 0 from
          (hNcast ▸ hN0).ne')).symm
      · have hCltK : ⌈p * ((mx : ℝ) - (mn : ℝ) + 1)⌉ < mx - mn + 1 :=
          lt_of_le_of_ne hceilK hCK
        have hxlt : ¬ Rdbl.le (Rdbl.val (mx : ℝ))
            (Rdbl.val ((⌈p * ((mx : ℝ) - (mn : ℝ) + 1)⌉ + mn - 1 : ℤ) : ℝ)) := by
          show ¬ ((mx : ℝ) ≤
            ((⌈p * ((mx : ℝ) - (mn : ℝ) + 1)⌉ + mn - 1 : ℤ) : ℝ))
          exact_mod_cast
            (show ¬ (mx ≤ ⌈p * ((mx : ℝ) - (mn : ℝ) + 1)⌉ + mn - 1) by omega)
        have hcdf : cdf_dunif
            (Rdbl.val ((⌈p * ((mx : ℝ) - (mn : ℝ) + 1)⌉ + mn - 1 : ℤ) : ℝ))
            (Rdbl.val (mn : ℝ)) (Rdbl.val (mx : ℝ)) =
            Rdbl.val ((cfloor ((⌈p * ((mx : ℝ) - (mn : ℝ) + 1)⌉ + mn - 1 : ℤ) : ℝ)
              - (mn : ℝ) + 1) / ((mx : ℝ) - (mn : ℝ) + 1)) := by
          norm_num [cdf_dunif, dunifBadParams, Rdbl.isnan, hfl, hfr, hltf,
            not_lt.mpr hmn, Rdbl.lt, Rdbl.le]
          rw [if_neg (by exact_mod_cast
              (show ¬ (⌈p * ((mx : ℝ) - (mn : ℝ) + 1)⌉ + mn - 1 < mn)
                by omega)),
            if_neg (by exact_mod_cast
              (show ¬ (mx ≤ ⌈p * ((mx : ℝ) - (mn : ℝ) + 1)⌉ + mn - 1)
                by omega))]
        rw [hcdf]
        congr 1
        rw [cfloor, Int.floor_intCast]
        push_cast
        ring
  · rw [le_div_iff₀ hN0]
    exact Int.le_ceil _
  · rw [div_lt_iff₀ hN0, show (p + 1 / ((mx : ℝ) - (mn : ℝ) + 1)) *
      ((mx : ℝ) - (mn : ℝ) + 1) = p * ((mx : ℝ) - (mn : ℝ) + 1) + 1 by
        field_simp]
    exact Int.ceil_lt_add_one _

/-- Claim C6: for the Lomax, power, Kumaraswamy, Gumbel and Gompertz
kernels, the cumulative of the quantile at a probability p strictly in
(0,1) with parameters in their domains is exactly p; for the discrete
uniform, with N = max - min + 1, the cumulative of the quantile is
ceil(p*N)/N, which is at or above p and within 1/N of it (the
discretisation of the claim). -/
theorem quantile_cdf_roundtrip :
    (∀ p lam kap : ℝ, 0 < p → p < 1 → 0 < lam → 0 < kap →
      cdf_lomax (invcdf_lomax (Rdbl.val p) (Rdbl.val lam) (Rdbl.val kap))
        (Rdbl.val lam) (Rdbl.val kap) = Rdbl.val p) ∧
    (∀ p al be : ℝ, 0 < p → p < 1 → 0 < al → 0 < be →
      cdf_power (invcdf_power (Rdbl.val p) (Rdbl.val al) (Rdbl.val be))
        (Rdbl.val al) (Rdbl.val be) = Rdbl.val p) ∧
    (∀ p a b : ℝ, 0 < p → p < 1 → 0 < a → 0 < b →
      cdf_kumar (invcdf_kumar (Rdbl.val p) (Rdbl.val a) (Rdbl.val b))
        (Rdbl.val a) (Rdbl.val b) = Rdbl.val p) ∧
    (∀ p mu sig : ℝ, 0 < p → p < 1 → 0 < sig →
      cdf_gumbel (invcdf_gumbel (Rdbl.val p) (Rdbl.val mu) (Rdbl.val sig))
        (Rdbl.val mu) (Rdbl.val sig) = Rdbl.val p) ∧
    (∀ p a b : ℝ, 0 < p → p < 1 → 0 < a → 0 < b →
      cdf_gompertz (invcdf_gompertz (Rdbl.val p) (Rdbl.val a) (Rdbl.val b))
        (Rdbl.val a) (Rdbl.val b) = Rdbl.val p) ∧
    (∀ (p : ℝ) (mn mx : ℤ), 0 < p → p < 1 → mn ≤ mx →
      cdf_dunif (invcdf_dunif (Rdbl.val p) (Rdbl.val (mn : ℝ))
          (Rdbl.val (mx : ℝ))) (Rdbl.val (mn : ℝ)) (Rdbl.val (mx : ℝ)) =
        Rdbl.val ((⌈p * ((mx : ℝ) - (mn : ℝ) + 1)⌉ : ℝ) /
          ((mx : ℝ) - (mn : ℝ) + 1)) ∧
      p ≤ (⌈p * ((mx : ℝ) - (mn : ℝ) + 1)⌉ : ℝ) /
          ((mx : ℝ) - (mn : ℝ) + 1) ∧
      (⌈p * ((mx : ℝ) - (mn : ℝ) + 1)⌉ : ℝ) / ((mx : ℝ) - (mn : ℝ) + 1) <
        p + 1 / ((mx : ℝ) - (mn : ℝ) + 1)) :=
  ⟨lomax_rt, power_rt, kumar_rt, gumbel_rt, gompertz_rt, dunif_rt⟩

/-- Claim C6 witness: concrete round trips at p = 1/2 for each of the six
distributions. -/
theorem quantile_cdf_roundtrip_witness :
    cdf_lomax (invcdf_lomax (Rdbl.val (1 / 2)) (Rdbl.val 1) (Rdbl.val 1))
      (Rdbl.val 1) (Rdbl.val 1) = Rdbl.val (1 / 2) ∧
    cdf_power (invcdf_power (Rdbl.val (1 / 2)) (Rdbl.val 2) (Rdbl.val 3))
      (Rdbl.val 2) (Rdbl.val 3) = Rdbl.val (1 / 2) ∧
    cdf_kumar (invcdf_kumar (Rdbl.val (1 / 2)) (Rdbl.val 2) (Rdbl.val 3))
      (Rdbl.val 2) (Rdbl.val 3) = Rdbl.val (1 / 2) ∧
    cdf_gumbel (invcdf_gumbel (Rdbl.val (1 / 2)) (Rdbl.val 0) (Rdbl.val 1))
      (Rdbl.val 0) (Rdbl.val 1) = Rdbl.val (1 / 2) ∧
    cdf_gompertz (invcdf_gompertz (Rdbl.val (1 / 2)) (Rdbl.val 1)
      (Rdbl.val 1)) (Rdbl.val 1) (Rdbl.val 1) = Rdbl.val (1 / 2) ∧
    (cdf_dunif (invcdf_dunif (Rdbl.val (1 / 2)) (Rdbl.val ((0 : ℤ) : ℝ))
        (Rdbl.val ((3 : ℤ) : ℝ))) (Rdbl.val ((0 : ℤ) : ℝ))
        (Rdbl.val ((3 : ℤ) : ℝ)) =
      Rdbl.val ((⌈(1 / 2 : ℝ) * (((3 : ℤ) : ℝ) - ((0 : ℤ) : ℝ) + 1)⌉ : ℝ) /
        (((3 : ℤ) : ℝ) - ((0 : ℤ) : ℝ) + 1)) ∧
    (1 / 2 : ℝ) ≤ (⌈(1 / 2 : ℝ) * (((3 : ℤ) : ℝ) - ((0 : ℤ) : ℝ) + 1)⌉ : ℝ) /
        (((3 : ℤ) : ℝ) - ((0 : ℤ) : ℝ) + 1) ∧
    (⌈(1 / 2 : ℝ) * (((3 : ℤ) : ℝ) - ((0 : ℤ) : ℝ) + 1)⌉ : ℝ) /
        (((3 : ℤ) : ℝ) - ((0 : ℤ) : ℝ) + 1) <
      1 / 2 + 1 / (((3 : ℤ) : ℝ) - ((0 : ℤ) : ℝ) + 1)) :=
  ⟨quantile_cdf_roundtrip.1 (1 / 2) 1 1 (by norm_num) (by norm_num)
      (by norm_num) (by norm_num),
   quantile_cdf_roundtrip.2.1 (1 / 2) 2 3 (by norm_num) (by norm_num)
      (by norm_num) (by norm_num),
   quantile_cdf_roundtrip.2.2.1 (1 / 2) 2 3 (by norm_num) (by norm_num)
      (by norm_num) (by norm_num),
   quantile_cdf_roundtrip.2.2.2.1 (1 / 2) 0 1 (by norm_num) (by norm_num)
      (by norm_num),
   quantile_cdf_roundtrip.2.2.2.2.1 (1 / 2) 1 1 (by norm_num) (by norm_num)
      (by norm_num) (by norm_num),
   quantile_cdf_roundtrip.2.2.2.2.2 (1 / 2) 0 3 (by norm_num) (by norm_num)
      (by norm_num)⟩


/- ------------------------------------------------------------------ -/
/- Claim C10 (confirmed): the p = 0 special cases of the discrete
   quantile kernels. -/

/-- Claim C10: the discrete-Weibull quantile kernel returns 0 at p = 0 and
the discrete-uniform quantile kernel returns min at p = 0 or when
min = max, bypassing the ceil-based closed forms, which at p = 0 evaluate
to -1 and min - 1 respectively. -/
theorem discrete_quantile_zero_special_case :
    (∀ q beta : ℝ, 0 < q → q < 1 → 0 < beta →
      invcdf_dweibull (Rdbl.val 0) (Rdbl.val q) (Rdbl.val beta) =
        Rdbl.val 0 ∧
      cceil ((Real.log (1 - 0) / Real.log q) ^ (1 / beta) - 1) = -1) ∧
    (∀ mn mx : ℤ, mn ≤ mx →
      invcdf_dunif (Rdbl.val 0) (Rdbl.val (mn : ℝ)) (Rdbl.val (mx : ℝ)) =
        Rdbl.val (mn : ℝ) ∧
      cceil (0 * ((mx : ℝ) - (mn : ℝ) + 1) + (mn : ℝ) - 1) = (mn : ℝ) - 1) ∧
    (∀ (p : ℝ) (mn : ℤ), 0 ≤ p → p ≤ 1 →
      invcdf_dunif (Rdbl.val p) (Rdbl.val (mn : ℝ)) (Rdbl.val (mn : ℝ)) =
        Rdbl.val (mn : ℝ)) := by
  refine ⟨?_, ?_, ?_⟩
  · intro q beta hq0 hq1 hb
    constructor
    · norm_num [invcdf_dweibull, Rdbl.isnan, Rdbl.le, Rdbl.lt, Rdbl.eqq,
        not_le.mpr hq0, not_le.mpr hq1, not_le.mpr hb]
    · rw [show ((1 : ℝ) - 0) = 1 by norm_num, Real.log_one, zero_div,
        Real.zero_rpow (one_div_pos.mpr hb).ne', zero_sub,
        show ((-1 : ℝ)) = ((-1 : ℤ) : ℝ) by norm_num]
      rw [cceil, Int.ceil_intCast]
  · intro mn mx hmn
    have hfl : Rdbl.eqq (Rdbl.floorR (Rdbl.val (mn : ℝ))) (Rdbl.val (mn : ℝ)) := by
      show ((⌊(mn : ℝ)⌋ : ℤ) : ℝ) = (mn : ℝ)
      rw [Int.floor_intCast]
    have hfr : Rdbl.eqq (Rdbl.floorR (Rdbl.val (mx : ℝ))) (Rdbl.val (mx : ℝ)) := by
      show ((⌊(mx : ℝ)⌋ : ℤ) : ℝ) = (mx : ℝ)
      rw [Int.floor_intCast]
    constructor
    · have hle : ¬ Rdbl.lt (Rdbl.val (mx : ℝ)) (Rdbl.val (mn : ℝ)) := by
        show ¬ ((mx : ℝ) < (mn : ℝ))
        exact_mod_cast not_lt.mpr hmn
      have h00 : Rdbl.eqq (Rdbl.val 0) (Rdbl.val 0) := by
        show (0 : ℝ) = 0
        rfl
      norm_num [invcdf_dunif, Rdbl.isnan, Rdbl.isinf, Rdbl.lt,
        hfl, hfr, hle, h00]
      intro hcon
      exact absurd hcon (not_lt.mpr hmn)
    · rw [show (0 * ((mx : ℝ) - (mn : ℝ) + 1) + (mn : ℝ) - 1) =
        (((mn - 1 : ℤ) : ℝ)) by push_cast; ring]
      rw [cceil, Int.ceil_intCast]
      push_cast
      ring
  · intro p mn hp0 hp1
    have hfl : Rdbl.eqq (Rdbl.floorR (Rdbl.val (mn : ℝ))) (Rdbl.val (mn : ℝ)) := by
      show ((⌊(mn : ℝ)⌋ : ℤ) : ℝ) = (mn : ℝ)
      rw [Int.floor_intCast]
    have hself : Rdbl.eqq (Rdbl.val (mn : ℝ)) (Rdbl.val (mn : ℝ)) := by
      show (mn : ℝ) = (mn : ℝ)
      rfl
    norm_num [invcdf_dunif, Rdbl.isnan, Rdbl.isinf, Rdbl.lt,
      hfl, hself, not_lt.mpr hp0, not_lt.mpr hp1]

/-- Claim C10 witness: concrete instances of the three special cases. -/
theorem discrete_quantile_zero_special_case_witness :
    invcdf_dweibull (Rdbl.val 0) (Rdbl.val (1 / 2)) (Rdbl.val 1) =
      Rdbl.val 0 ∧
    invcdf_dunif (Rdbl.val 0) (Rdbl.val ((0 : ℤ) : ℝ))
      (Rdbl.val ((3 : ℤ) : ℝ)) = Rdbl.val ((0 : ℤ) : ℝ) ∧
    invcdf_dunif (Rdbl.val (1 / 2)) (Rdbl.val ((5 : ℤ) : ℝ))
      (Rdbl.val ((5 : ℤ) : ℝ)) = Rdbl.val ((5 : ℤ) : ℝ) :=
  ⟨(discrete_quantile_zero_special_case.1 (1 / 2) 1 (by norm_num)
      (by norm_num) (by norm_num)).1,
   (discrete_quantile_zero_special_case.2.1 0 3 (by norm_num)).1,
   discrete_quantile_zero_special_case.2.2 (1 / 2) 5 (by norm_num)
     (by norm_num)⟩


end
